import Mathlib

/-!
Verification development for the agent-kg extraction-to-graph pipeline.

Python sources are shallowly embedded: pure functions become Lean functions,
pydantic construction-time validation becomes `Except`-returning smart
constructors, in-place mutation becomes explicit value rewriting, and
machine floats become `ℚ`.  External boundaries (LLM calls, the embedding
API, tiktoken, hashlib, Neo4j) are modelled as explicit inputs or as
injective deterministic encodings, as noted on each definition.
-/

namespace AgentKG

/-- Python str.isspace character set (ASCII part): space, tab, newline,
carriage return, vertical tab, form feed. -/
def isPyWhitespace (c : Char) : Bool :=
  c == ' ' || c == '\t' || c == '\n' || c == '\r' || c == '\x0b' || c == '\x0c'

/-- Python str.strip(): remove leading and trailing whitespace. -/
def pyStrip (s : String) : String :=
  ⟨((s.data.dropWhile isPyWhitespace).reverse.dropWhile isPyWhitespace).reverse⟩

/-- Python str.lower() over the ASCII alphabet. -/
def pyLower (s : String) : String := ⟨s.data.map Char.toLower⟩

/-- Python str.upper() over the ASCII alphabet. -/
def pyUpper (s : String) : String := ⟨s.data.map Char.toUpper⟩

/-- Python slicing `s[:n]`. -/
def strTake (s : String) (n : ℕ) : String := ⟨s.data.take n⟩

/-- Python `sep.join(items)`. -/
def joinSep (sep : String) : List String → String
  | [] => ""
  | [x] => x
  | x :: xs => x ++ sep ++ joinSep sep xs

/-- Lexicographic code-point order on character lists. -/
def leChars : List Char → List Char → Bool
  | [], _ => true
  | _ :: _, [] => false
  | a :: as, b :: bs =>
    if a.toNat < b.toNat then true
    else if b.toNat < a.toNat then false
    else leChars as bs

/-- Lexicographic string order used for JSON key sorting. -/
def strLe (a b : String) : Bool := leChars a.data b.data

/-- Whether the first list is a prefix of the second (character lists). -/
def isPrefixChars : List Char → List Char → Bool
  | [], _ => true
  | _ :: _, [] => false
  | a :: as, b :: bs => a == b && isPrefixChars as bs

/-- Whether the first list occurs as a contiguous sublist of the second.
Models the Python substring test `needle in hay`. -/
def containsChars (needle : List Char) : List Char → Bool
  | [] => needle.isEmpty
  | b :: bs => isPrefixChars needle (b :: bs) || containsChars needle bs

/-- Python `needle in hay` on strings. -/
def strContains (hay needle : String) : Bool :=
  containsChars needle.data hay.data

/-- Lookup in an assoc-list model of a Python dict: `d.get(k)`. -/
def dictGet (d : List (String × String)) (k : String) : Option String :=
  (d.find? (fun p => p.1 == k)).map (fun p => p.2)

-- ===================================================================
-- models/base.py
-- ===================================================================

namespace Models

/-- EntityType (models/base.py): a named entity class with definition.
The computed `to_embed` text is a pure rendering and is omitted. -/
structure EntityType where
  label : String
  definition : String
deriving DecidableEq, Repr

/-- Entity (models/base.py): `label` is the class, `name` the instance.
`role` models the Literal role tag of the role-typed subclasses
(AgentEntity, ThemeEntity, ...); it is empty for a plain Entity.
`aliasesMeta` models `metadata["aliases"]` (`none` when metadata is
absent or has no aliases key).  Confidence is a float in [0,1],
modelled as ℚ. -/
structure Entity where
  label : String
  name : String
  definition : String
  confidence : ℚ := 1
  role : String := ""
  aliasesMeta : Option (List String) := none
deriving DecidableEq, Repr

/-- Roles (models/base.py): container of role-tagged entity lists. -/
structure Roles where
  agents : List Entity
  themes : List Entity
  circumstances : List Entity := []
  context : List Entity := []
  origin_destinations : List Entity := []
  time_locations : List Entity := []
  candidate_entity_types : List EntityType := []
deriving DecidableEq, Repr

/-- Roles.all_entities: flatten all role lists into a single entity list. -/
def Roles.all_entities (r : Roles) : List Entity :=
  r.agents ++ r.themes ++ r.circumstances ++ r.context ++
    r.origin_destinations ++ r.time_locations

/-- Pydantic construction of Roles.  The `agents` and `themes` fields are
declared with `min_length=1`, so validation fails when either list is
empty; the remaining lists default to empty and carry no constraint. -/
def mkRoles (agents themes circumstances context origin_destinations
    time_locations : List Entity) (candidate_entity_types : List EntityType) :
    Except String Roles :=
  if agents.length < 1 then
    .error "agents: List should have at least 1 item after validation"
  else if themes.length < 1 then
    .error "themes: List should have at least 1 item after validation"
  else
    .ok ⟨agents, themes, circumstances, context, origin_destinations,
      time_locations, candidate_entity_types⟩

/-- RelationType (models/base.py).  The `label` field is computed by a
model validator from verb and target_category; here it is carried as
data (`none` models an unset label). -/
structure RelationType where
  axis : String
  verb : String
  target_category : String
  definition : String
  label : Option String := none
deriving DecidableEq, Repr

/-- Source (models/base.py): document id, optional chunk id, and the
verbatim quotes list (`min_length=1`). -/
structure Source where
  document_id : String
  chunk_id : Option String := none
  quotes : List String
deriving DecidableEq, Repr

/-- The quotes field validator of Source (models/base.py, `_validate_quotes`).
Each quote is stripped; a stripped length below 40 raises, and when the
validation context supplies a non-empty `document_text`, a stripped quote
that is not an exact substring of it raises.  Returns the cleaned
(stripped) quotes. -/
def validateQuotes (documentText : String) : List String → Except String (List String)
  | [] => .ok []
  | q :: rest =>
    let q' := pyStrip q
    if q'.length < 40 then
      .error "Quote too short (minimum 40 chars)"
    else if documentText != "" && !(strContains documentText q') then
      .error "Quote must be an exact, verbatim substring of the source document"
    else
      match validateQuotes documentText rest with
      | .error e => .error e
      | .ok cleaned => .ok (q' :: cleaned)

/-- Pydantic construction of Source.  The `quotes` field carries
`min_length=1` (checked before the after-mode field validator runs);
`ctx` models the optional `document_text` entry of the validation
context (an absent entry behaves like the empty string). -/
def mkSource (document_id : String) (chunk_id : Option String)
    (quotes : List String) (ctx : Option String) : Except String Source :=
  if quotes.length < 1 then
    .error "quotes: List should have at least 1 item after validation"
  else
    match validateQuotes (ctx.getD "") quotes with
    | .error e => .error e
    | .ok cleaned => .ok ⟨document_id, chunk_id, cleaned⟩

/-- Relation (models/base.py), with the computed fields produced by
`_compute_fields` stored as plain data. -/
structure Relation where
  description : String
  relation_type : RelationType
  roles : Roles
  source : Source
  confidence : ℚ := 1
  labels : List String := []
  generic : String := ""
  specific : String := ""
deriving DecidableEq, Repr

/-- Pydantic construction of Relation: the nested Roles value is
validated first (min_length on agents/themes), then `_compute_fields`
derives labels, generic and specific from the first agent and first
theme — the head accesses are safe exactly because Roles validation
guarantees both lists are non-empty. -/
def mkRelation (description : String) (relation_type : RelationType)
    (agents themes circumstances context origin_destinations
      time_locations : List Entity)
    (candidate_entity_types : List EntityType)
    (source : Source) (confidence : ℚ) : Except String Relation :=
  match mkRoles agents themes circumstances context origin_destinations
      time_locations candidate_entity_types with
  | .error e => .error e
  | .ok roles =>
    match roles.agents, roles.themes with
    | a0 :: _, t0 :: _ =>
      let lbl := relation_type.label.getD ""
      .ok { description := description
            relation_type := relation_type
            roles := roles
            source := source
            confidence := confidence
            labels := [relation_type.verb, lbl]
            generic := a0.label ++ " " ++ lbl ++ " " ++ t0.label
            specific := a0.label ++ " (" ++ a0.name ++ ") " ++ lbl ++ " " ++
              t0.label ++ " (" ++ t0.name ++ ")" }
    | _, _ => .error "unreachable: roles validated non-empty"

end Models

-- ===================================================================
-- validation/rules.py and workflow/pipeline.py `_validate`
-- ===================================================================

namespace Valid

/-- Modelled from the spec: the Evidence item (a verbatim quote with an
optional per-quote chunk id) that `validation/rules.py` and
`workflow/pipeline.py` access through `relation.source.evidence`, whose
class definition is not among the provided sources (the provided
`models/base.py` is the earlier single-chunk-source iteration; the spec
follows the multi-chunk evidence version). -/
structure Evidence where
  quote : String
  chunk_id : Option String := none
deriving DecidableEq, Repr

/-- The evidence-list form of Source used by the validation rules. -/
structure Source where
  document_id : String
  chunk_id : Option String := none
  evidence : List Evidence := []
deriving DecidableEq, Repr

/-- The Relation shape consumed by the validation rules and the
pipeline stages: type, role lists, an evidence-based source,
confidence, and the computed `generic` string used in violation
messages. -/
structure Relation where
  description : String := ""
  relation_type : Models.RelationType := ⟨"DYNAMIC", "", "", "", none⟩
  roles : Models.Roles
  source : Source
  confidence : ℚ := 1
  generic : String := ""
deriving DecidableEq, Repr

/-- Violation (validation/rules.py).  The heterogeneous context dict is
modelled as string key-value pairs (numeric values rendered). -/
structure Violation where
  rule_name : String
  severity : String
  message : String
  subject_type : String
  subject_id : Option String := none
  context : List (String × String) := []
deriving DecidableEq, Repr

/-- check_has_agent_and_theme: one error per empty agents list and one
per empty themes list. -/
def check_has_agent_and_theme (relation : Relation) : List Violation :=
  (if relation.roles.agents.length < 1 then
    [{ rule_name := "has_agent_and_theme"
       severity := "error"
       message := "Relation " ++ relation.generic ++ " has no agent role."
       subject_type := "relation" }]
  else []) ++
  (if relation.roles.themes.length < 1 then
    [{ rule_name := "has_agent_and_theme"
       severity := "error"
       message := "Relation " ++ relation.generic ++ " has no theme role."
       subject_type := "relation" }]
  else [])

/-- check_no_generic_entity_labels: error when the entity label is in the
blocklist (case-insensitive). -/
def check_no_generic_entity_labels (entity : Models.Entity)
    (blocklist : List String) : List Violation :=
  if (blocklist.map pyLower).contains (pyLower entity.label) then
    [{ rule_name := "no_generic_entity_labels"
       severity := "error"
       message := "Entity label " ++ entity.label ++ " is too generic."
       subject_type := "entity"
       context := [("label", entity.label)] }]
  else []

/-- check_source_non_empty: warning when there is no evidence item with a
non-blank quote. -/
def check_source_non_empty (relation : Relation) : List Violation :=
  if relation.source.evidence.isEmpty ||
      !(relation.source.evidence.any (fun e => pyStrip e.quote != "")) then
    [{ rule_name := "source_non_empty"
       severity := "warning"
       message := "Relation " ++ relation.generic ++ " has no source quotes."
       subject_type := "relation" }]
  else []

/-- check_confidence_threshold: warning for low-confidence relations. -/
def check_confidence_threshold (relation : Relation) (threshold : ℚ) :
    List Violation :=
  if relation.confidence < threshold then
    [{ rule_name := "low_confidence"
       severity := "warning"
       message := "Relation " ++ relation.generic ++ " has low confidence."
       subject_type := "relation"
       context := [("confidence", toString relation.confidence)] }]
  else []

/-- The seen-set loop of check_no_duplicate_entities_in_relation. -/
def dupGo (generic : String) : List Models.Entity → List (String × String) →
    List Violation
  | [], _ => []
  | e :: rest, seen =>
    let key := (pyLower e.label, pyLower e.name)
    (if seen.contains key then
      [{ rule_name := "duplicate_entity_in_relation"
         severity := "warning"
         message := "Entity " ++ e.name ++ " (" ++ e.label ++
           ") appears multiple times in relation " ++ generic ++ "."
         subject_type := "entity"
         context := [("label", e.label), ("name", e.name)] }]
    else []) ++ dupGo generic rest (key :: seen)

/-- check_no_duplicate_entities_in_relation: warning when the same
lowercased (label, name) appears more than once across role lists. -/
def check_no_duplicate_entities_in_relation (relation : Relation) :
    List Violation :=
  dupGo relation.generic relation.roles.all_entities []

/-- Python truthiness of an optional dict: present and non-empty. -/
def dictTruthy (d : Option (List (String × String))) : Bool :=
  match d with
  | some l => !l.isEmpty
  | none => false

/-- Python truthiness of an optional string: present and non-empty. -/
def strOptTruthy (s : Option String) : Bool :=
  match s with
  | some v => v != ""
  | none => false

/-- The per-evidence body of check_quotes_are_verbatim: chunk-scoped
reference text when available, else document text; emit an error when
the quote is not an exact substring. -/
def quoteViolation (relation : Relation) (document_text : String)
    (chunk_texts : Option (List (String × String))) (e : Evidence) :
    List Violation :=
  let c_text : Option String :=
    if dictTruthy chunk_texts && strOptTruthy e.chunk_id then
      dictGet ((chunk_texts).getD []) (e.chunk_id.getD "")
    else none
  let reference_text :=
    match c_text with
    | some t => if t != "" then t else document_text
    | none => document_text
  let scope := match c_text with
    | some t => if t != "" then "chunk" else "document"
    | none => "document"
  if reference_text == "" then []
  else if strContains reference_text e.quote then []
  else
    [{ rule_name := "quote_not_verbatim"
       severity := "error"
       message := "Relation " ++ relation.generic ++
         ": source quote is not an exact substring of the source " ++ scope
       subject_type := "relation"
       context := [("document_id", relation.source.document_id),
         ("chunk_id", (e.chunk_id.getD "")), ("scope", scope),
         ("quote_preview", strTake e.quote 120)] }]

/-- check_quotes_are_verbatim (validation/rules.py). -/
def check_quotes_are_verbatim (relation : Relation) (document_text : String)
    (chunk_texts : Option (List (String × String))) : List Violation :=
  if document_text == "" && !(dictTruthy chunk_texts) then []
  else relation.source.evidence.flatMap
    (quoteViolation relation document_text chunk_texts)

/-- All rules for one relation, in the order run_symbolic_validation
applies them. -/
def relationViolations (relation : Relation) (blocklist : List String)
    (confidence_threshold : ℚ) (doc_texts chunk_texts :
    Option (List (String × String))) : List Violation :=
  let doc_text := match doc_texts with
    | some l => (dictGet l relation.source.document_id).getD ""
    | none => ""
  check_has_agent_and_theme relation ++
  check_source_non_empty relation ++
  check_confidence_threshold relation confidence_threshold ++
  check_no_duplicate_entities_in_relation relation ++
  (if dictTruthy chunk_texts || doc_text != "" then
    check_quotes_are_verbatim relation doc_text chunk_texts
  else []) ++
  relation.roles.all_entities.flatMap
    (fun e => check_no_generic_entity_labels e blocklist)

/-- run_symbolic_validation (validation/rules.py): flat list of all
violations over a relation list. -/
def run_symbolic_validation (relations : List Relation)
    (blocklist : List String) (confidence_threshold : ℚ)
    (doc_texts chunk_texts : Option (List (String × String))) :
    List Violation :=
  relations.flatMap
    (fun r => relationViolations r blocklist confidence_threshold
      doc_texts chunk_texts)

/-- The 0.3 confidence-threshold default of run_symbolic_validation,
written as a normalised rational literal. -/
def confidenceThreshold : ℚ := ⟨3, 10, by norm_num, by norm_num⟩

/-- Whether a relation draws at least one error-severity violation from
`run_symbolic_validation` run on it alone (the per-relation granularity
used by Pipeline._validate). -/
def relationHasError (relation : Relation) (blocklist : List String)
    (doc_texts chunk_texts : Option (List (String × String))) : Bool :=
  (run_symbolic_validation [relation] blocklist confidenceThreshold doc_texts
    chunk_texts).any (fun v => v.severity == "error")

/-- The per-relation partition loop of Pipeline._validate: returns
(valid, all violations, rejected). -/
def validateGo (blocklist : List String)
    (doc_texts chunk_texts : Option (List (String × String))) :
    List Relation → List Relation × List Violation × List Relation
  | [] => ([], [], [])
  | r :: rest =>
    let vs := run_symbolic_validation [r] blocklist confidenceThreshold doc_texts
      chunk_texts
    let acc := validateGo blocklist doc_texts chunk_texts rest
    if vs.any (fun x => x.severity == "error") then
      (acc.1, vs ++ acc.2.1, r :: acc.2.2)
    else
      (r :: acc.1, vs ++ acc.2.1, acc.2.2)

/-- Pipeline._validate (workflow/pipeline.py): fail-closed per relation.
Relations with an error-severity violation are rejected; warnings do
not block.  Returns (valid relations, violation count, rejected count).
The advisory Validator-agent pass over the aggregated errors is an
external LLM call that does not change the returned tuple. -/
def pipeline_validate (relations : List Relation) (blocklist : List String)
    (doc_texts chunk_texts : Option (List (String × String))) :
    List Relation × ℕ × ℕ :=
  if relations.isEmpty then ([], 0, 0)
  else
    let acc := validateGo blocklist doc_texts chunk_texts relations
    (acc.1, acc.2.1.length, acc.2.2.length)

end Valid

-- ===================================================================
-- utils/chunking.py
-- ===================================================================

namespace Chunking

/-- Chunk (utils/chunking.py): a contiguous text span from a document. -/
structure Chunk where
  chunk_id : String
  document_id : String
  index : ℕ
  text : String
  start_char : ℕ
  end_char : ℕ
  token_count : ℕ := 0
deriving DecidableEq, Repr

/-- generate_chunk_id (utils/chunking.py): the source hashes a JSON
payload of (document_id, chunk_index, chunk_text) with SHA-256; the
hash itself lives in hashlib, so the id is modelled as the injective
deterministic payload encoding. -/
def generate_chunk_id (document_id : String) (index : ℕ) (chunk_text : String) :
    String :=
  "chunk_id=" ++ document_id ++ ";" ++ toString index ++ ";" ++ chunk_text

/-- The tokenizer boundary (tiktoken) is external; it is modelled by the
character tokenizer: `encode` maps a string to its character list, so a
token count is a character count and decoding a token window is taking
a character prefix. -/
def tokenCount (s : List Char) : ℕ := s.length

/-- The sentence-splitting state machine of _split_sentences: a segment
ends after the maximal whitespace run that follows sentence-ending
punctuation (the regex split after `[.!?]` with trailing whitespace kept
on the preceding segment).  `cur` is the reversed current segment and
`brk` marks being inside the terminating whitespace run. -/
def splitGo : List Char → List Char → Bool → List (List Char)
  | [], cur, _ => if cur.isEmpty then [] else [cur.reverse]
  | c :: rest, cur, brk =>
    if brk then
      if isPyWhitespace c then splitGo rest (c :: cur) true
      else cur.reverse :: splitGo rest [c] false
    else
      let punct := match cur with
        | p :: _ => p == '.' || p == '!' || p == '?'
        | [] => false
      if punct && isPyWhitespace c then splitGo rest (c :: cur) true
      else splitGo rest (c :: cur) false

/-- _split_sentences (utils/chunking.py) over character lists. -/
def splitSentences (text : List Char) : List (List Char) :=
  splitGo text [] false

/-- The index of the last space in the lookback window of the hard-split
cut: the highest position in [lo, hi) holding a space, as
`segment.rfind(" ", lo, hi)` (none models -1). -/
def lastSpaceIdx (s : List Char) (lo hi : ℕ) : Option ℕ :=
  (((List.range s.length).filter
    (fun i => lo ≤ i && i < hi && s.getD i ' ' == ' ' &&
      decide (i < s.length))).reverse).head?

/-- One cut position of _hard_split_segment relative to the remaining
segment: the decoded max_tokens token window ends at character
`maxTokens` under the character tokenizer, then the cut snaps back to
just after the nearest space within a 200-character lookback when that
space is not at position 0. -/
def hardCut (s : List Char) (maxTokens : ℕ) : ℕ :=
  match lastSpaceIdx s (maxTokens - 200) maxTokens with
  | some snap => if snap > 0 then snap + 1 else maxTokens
  | none => maxTokens

/-- The piece-emitting loop of _hard_split_segment.  Python diverges when
max_tokens = 0 (the cut makes no progress); that degenerate budget is
mapped to the identity split so the model is total, and the theorems
assume a positive budget. -/
def hardGo (s : List Char) (maxTokens : ℕ) : List (List Char) :=
  if h : maxTokens = 0 then [s]
  else if h2 : tokenCount s ≤ maxTokens then [s]
  else
    let cut := hardCut s maxTokens
    let cut' := min cut maxTokens
    s.take cut' :: hardGo (s.drop cut') maxTokens
termination_by s.length
decreasing_by
  have hmt : 0 < maxTokens := Nat.pos_of_ne_zero h
  have hcut : 0 < hardCut s maxTokens := by
    unfold hardCut
    generalize lastSpaceIdx s (maxTokens - 200) maxTokens = o
    rcases o with _ | snap
    · simpa using hmt
    · dsimp only
      split <;> omega
  simp only [tokenCount] at h2
  simp only [List.length_drop]
  omega

/-- _hard_split_segment (utils/chunking.py) under the character
tokenizer. -/
def hardSplitSegment (segment : List Char) (maxTokens : ℕ) : List (List Char) :=
  hardGo segment maxTokens

/-- The greedy window extension: number of further sentences accepted
after the mandatory first one, stopping before the accumulated token
count would exceed the budget. -/
def greedyLen : List ℕ → ℕ → ℕ → ℕ
  | [], _, _ => 0
  | c :: rest, acc, maxTokens =>
    if acc + c > maxTokens then 0
    else 1 + greedyLen rest (acc + c) maxTokens

/-- Window length at the current cursor: a window always contains at
least its first sentence, then extends greedily within the budget. -/
def windowLen (toks : List ℕ) (maxTokens : ℕ) : ℕ :=
  match toks with
  | [] => 0
  | c :: rest => 1 + greedyLen rest c maxTokens

/-- The rewind scan walking the emitted window backwards: given the
reversed window token list and the current sentence index `k` of its
last element, the index at which accumulated trailing tokens first
reach the overlap budget. -/
def rewindIdxGo : List ℕ → ℕ → ℕ → ℕ → Option ℕ
  | [], _, _, _ => none
  | c :: rest, overlap, acc, k =>
    if acc + c ≥ overlap then some k
    else rewindIdxGo rest overlap (acc + c) (k - 1)

/-- The cursor advance after emitting a window: rewind to the sentence
index where accumulated trailing tokens reach the overlap budget when
that index is past the window start, else continue at the window end. -/
def stepLen (wtoks : List ℕ) (overlapTokens wlen : ℕ) : ℕ :=
  let relRewind := (rewindIdxGo wtoks.reverse overlapTokens 0
    (wlen - 1)).getD wlen
  if relRewind > 0 then relRewind else wlen

/-- The greedy window-and-rewind loop of chunk_document, operating on
the suffix of the hard-split sentence list starting at the cursor.
`startChar` is the summed character length of all sentences before the
cursor and `chunkIdx` the running chunk index. -/
def chunkLoop (sents : List (List Char)) (documentId : String)
    (maxTokens overlapTokens chunkIdx startChar : ℕ) : List Chunk :=
  match sents with
  | [] => []
  | s :: rest =>
    let toks := (s :: rest).map tokenCount
    let wlen := windowLen toks maxTokens
    let window := (s :: rest).take wlen
    let wtoks := toks.take wlen
    let text : String := ⟨window.flatten⟩
    let chunk : Chunk :=
      { chunk_id := generate_chunk_id documentId chunkIdx text
        document_id := documentId
        index := chunkIdx
        text := text
        start_char := startChar
        end_char := startChar + text.length
        token_count := wtoks.sum }
    if h : wlen ≥ (s :: rest).length then [chunk]
    else
      let step := stepLen wtoks overlapTokens wlen
      chunk :: chunkLoop ((s :: rest).drop step) documentId maxTokens
        overlapTokens (chunkIdx + 1)
        (startChar + (((s :: rest).take step).map List.length).sum)
termination_by sents.length
decreasing_by
  have hw : 1 ≤ windowLen ((s :: rest).map tokenCount) maxTokens := by
    simp [windowLen]
  have hstep : ∀ wt ov wl, 1 ≤ wl → 1 ≤ stepLen wt ov wl := by
    intro wt ov wl hwl
    unfold stepLen
    dsimp only
    split <;> omega
  have h1 := hstep (((s :: rest).map tokenCount).take
    (windowLen ((s :: rest).map tokenCount) maxTokens)) overlapTokens
    (windowLen ((s :: rest).map tokenCount) maxTokens) hw
  simp only [List.length_drop, List.length_cons]
  simp only [List.length_cons] at h
  omega

/-- chunk_document (utils/chunking.py) under the character tokenizer:
sentence split, hard split of oversized segments, then the greedy
window-with-overlap emission. -/
def chunk_document (text : String) (documentId : String)
    (maxTokens overlapTokens : ℕ) : List Chunk :=
  if pyStrip text == "" then []
  else
    let rawSentences := splitSentences text.data
    let sentences := rawSentences.flatMap
      (fun s => hardSplitSegment s maxTokens)
    chunkLoop sentences documentId maxTokens overlapTokens 0 0

end Chunking

-- ===================================================================
-- utils/embeddings.py
-- ===================================================================

namespace Emb

/-- The batch-building loop of compute_embeddings (utils/embeddings.py):
`cur`/`curTok` are the current batch and its token total.  A text is
flushed into a new batch when appending it would push a non-empty batch
over the budget; the text itself is then appended unconditionally.
`count` models the external tiktoken token counter. -/
def batchGo (count : String → ℕ) (budget : ℕ) :
    List String → List String → ℕ → List (List String)
  | [], cur, _ => if cur.isEmpty then [] else [cur]
  | t :: rest, cur, curTok =>
    let n := count t
    if !cur.isEmpty && curTok + n > budget then
      cur :: batchGo count budget rest [t] n
    else
      batchGo count budget rest (cur ++ [t]) (curTok + n)

/-- The token-aware batching of compute_embeddings: the returned batch
list is what the function sends to the embedding API, one call per
batch.  The API call itself is the external boundary. -/
def compute_batches (texts : List String) (count : String → ℕ)
    (max_tokens_per_batch : ℕ) : List (List String) :=
  if texts.isEmpty then []
  else batchGo count max_tokens_per_batch texts [] 0

/-- Token total of one batch. -/
def batchTokens (count : String → ℕ) (batch : List String) : ℕ :=
  (batch.map count).sum

end Emb

-- ===================================================================
-- models/ontology.py and agents/arbiter_agent.py
-- ===================================================================

namespace Onto

/-- OntologyType (models/ontology.py). -/
structure OntologyType where
  label : String
  definition : String
  is_seed : Bool := false
  cluster_name : Option String := none
deriving DecidableEq, Repr

/-- OntologySchema (models/ontology.py).  `created_at` is a wall-clock
timestamp from an external clock and carries no invariant; it is
omitted from the model. -/
structure OntologySchema where
  version : ℤ := 1
  parent_version : Option ℤ := none
  entity_types : List OntologyType := []
  relation_types : List OntologyType := []
  documents_since_last_negotiation : ℤ := 0
deriving DecidableEq, Repr

/-- OntologySchema.is_stale (models/ontology.py). -/
def is_stale (o : OntologySchema) (threshold : ℤ) : Bool :=
  decide (o.documents_since_last_negotiation ≥ threshold)

/-- ArbiterDecision (agents/arbiter_agent.py). -/
structure ArbiterDecision where
  action : String
  kind : String
  label : String
  definition : String := ""
  reasoning : String := ""
  merge_target : String := ""
deriving DecidableEq, Repr

/-- Insertion-ordered dict assignment `d[k] = v`: replace in place when
the key exists, else append. -/
def dictSet (d : List (String × OntologyType)) (k : String)
    (v : OntologyType) : List (String × OntologyType) :=
  if d.any (fun p => p.1 == k) then
    d.map (fun p => if p.1 == k then (k, v) else p)
  else d ++ [(k, v)]

/-- `d.pop(k, None)`: drop the key if present. -/
def dictPop (d : List (String × OntologyType)) (k : String) :
    List (String × OntologyType) :=
  d.filter (fun p => p.1 != k)

/-- The `{t.label: t for t in types}` comprehension. -/
def buildDict (ts : List OntologyType) : List (String × OntologyType) :=
  ts.foldl (fun d t => dictSet d t.label t) []

/-- The decision-application loop of apply_arbiter_decisions over the
(relation dict, entity dict) state. -/
def applyGo : List ArbiterDecision →
    List (String × OntologyType) × List (String × OntologyType) →
    List (String × OntologyType) × List (String × OntologyType)
  | [], st => st
  | d :: rest, (relD, entD) =>
    let isRel := d.kind == "relation"
    let target := if isRel then relD else entD
    let target' :=
      if d.action == "accept" then
        dictSet target d.label
          { label := d.label
            definition := if d.definition != "" then d.definition
              else d.reasoning
            is_seed := false }
      else if d.action == "merge" then dictPop target d.label
      else if d.action == "reject" then dictPop target d.label
      else target
    applyGo rest (if isRel then (target', entD) else (relD, target'))

/-- apply_arbiter_decisions (agents/arbiter_agent.py): a pure function
from the decision list and the previous schema to a brand-new schema —
the input value is only read (its type lists seed the working dicts),
never written.  Version is previous+1 (1 with no previous),
parent_version is the previous version (none with no previous), and
the staleness counter restarts at 0. -/
def apply_arbiter_decisions (decisions : List ArbiterDecision)
    (current_ontology : Option OntologySchema) : OntologySchema :=
  let existing_rel := match current_ontology with
    | some o => buildDict o.relation_types
    | none => []
  let existing_ent := match current_ontology with
    | some o => buildDict o.entity_types
    | none => []
  let st := applyGo decisions (existing_rel, existing_ent)
  { version := match current_ontology with
      | some o => o.version + 1
      | none => 1
    parent_version := current_ontology.map (fun o => o.version)
    entity_types := st.2.map (fun p => p.2)
    relation_types := st.1.map (fun p => p.2)
    documents_since_last_negotiation := 0 }

end Onto

-- ===================================================================
-- workflow/pipeline.py — drift detection
-- ===================================================================

namespace Drift

/-- np.max over one similarity row (non-empty in every reachable call:
one column per ontology relation type). -/
def maxRow : List ℚ → ℚ
  | [] => 0
  | x :: xs => xs.foldl max x

/-- np.mean over the per-relation best similarities. -/
def meanQ (l : List ℚ) : ℚ := l.sum / l.length

/-- Pipeline._compute_drift_score (workflow/pipeline.py).  The embedding
API is the external boundary: it returns one vector per input text, and
the row-normalised product `rel_norm @ type_norm.T` is supplied here as
the cosine-similarity matrix `sims` (one row per extracted relation,
one column per ontology relation type).  The drift score is
1 − mean(per-row max), clamped at 0. -/
def compute_drift_score (ontology : Option Onto.OntologySchema)
    (relTexts : List String) (sims : List (List ℚ)) : ℚ :=
  match ontology with
  | none => 1
  | some o =>
    if o.relation_types.isEmpty || relTexts.isEmpty then 1
    else max 0 (1 - meanQ (sims.map maxRow))

/-- Pipeline._should_negotiate_by_drift (workflow/pipeline.py): always
renegotiate with no ontology or no relation types (cold start); never
trigger on drift for batches under 10 relations; otherwise trigger
when the drift score reaches the 0.25 threshold. -/
def should_negotiate_by_drift (ontology : Option Onto.OntologySchema)
    (relTexts : List String) (sims : List (List ℚ)) : Bool :=
  match ontology with
  | none => true
  | some o =>
    if o.relation_types.isEmpty then true
    else if relTexts.length < 10 then false
    else decide (compute_drift_score ontology relTexts sims ≥ 1 / 4)

end Drift

-- ===================================================================
-- utils/sanitize.py
-- ===================================================================

namespace Sanitize

/-- Base letter of the common Latin-1 accented characters.  Models the
`unicodedata.normalize("NFD", ·)` decomposition step for that block;
characters outside the table pass through unchanged. -/
def stripAccentChar (c : Char) : Char :=
  match c with
  | 'á' | 'à' | 'â' | 'ä' | 'ã' | 'å' => 'a'
  | 'é' | 'è' | 'ê' | 'ë' => 'e'
  | 'í' | 'ì' | 'î' | 'ï' => 'i'
  | 'ó' | 'ò' | 'ô' | 'ö' | 'õ' => 'o'
  | 'ú' | 'ù' | 'û' | 'ü' => 'u'
  | 'ç' => 'c'
  | 'ñ' => 'n'
  | 'ý' => 'y'
  | 'Á' | 'À' | 'Â' | 'Ä' | 'Ã' | 'Å' => 'A'
  | 'É' | 'È' | 'Ê' | 'Ë' => 'E'
  | 'Í' | 'Ì' | 'Î' | 'Ï' => 'I'
  | 'Ó' | 'Ò' | 'Ô' | 'Ö' | 'Õ' => 'O'
  | 'Ú' | 'Ù' | 'Û' | 'Ü' => 'U'
  | 'Ç' => 'C'
  | 'Ñ' => 'N'
  | _ => c

/-- Combining marks (the Mn category block dropped after NFD). -/
def isCombMark (c : Char) : Bool :=
  0x300 ≤ c.toNat && c.toNat ≤ 0x36F

/-- Accent stripping: NFD decomposition then removal of combining
marks. -/
def stripAccents (s : String) : String :=
  ⟨(s.data.map stripAccentChar).filter (fun c => !isCombMark c)⟩

/-- ASCII word characters of the regex `[a-zA-Z0-9_]`. -/
def isWordChar (c : Char) : Bool :=
  ('a' ≤ c && c ≤ 'z') || ('A' ≤ c && c ≤ 'Z') ||
  ('0' ≤ c && c ≤ '9') || c == '_'

/-- `re.sub(r"[^a-zA-Z0-9_]+", "_", ·)`: each maximal run of non-word
characters becomes a single underscore.  `inRun` marks being inside
such a run. -/
def collapseNonWord : List Char → Bool → List Char
  | [], _ => []
  | c :: rest, inRun =>
    if isWordChar c then c :: collapseNonWord rest false
    else if inRun then collapseNonWord rest true
    else '_' :: collapseNonWord rest true

/-- `re.sub(r"_+", "_", ·)`: each maximal underscore run becomes a
single underscore. -/
def collapseUnderscores : List Char → Bool → List Char
  | [], _ => []
  | c :: rest, inRun =>
    if c == '_' then
      if inRun then collapseUnderscores rest true
      else '_' :: collapseUnderscores rest true
    else c :: collapseUnderscores rest false

/-- Python `str.strip("_")`. -/
def stripUnderscores (l : List Char) : List Char :=
  ((l.dropWhile (fun c => c == '_')).reverse.dropWhile
    (fun c => c == '_')).reverse

/-- Python `"&" → "_AND_"` replacement. -/
def replaceAmp (l : List Char) : List Char :=
  l.flatMap (fun c => if c == '&' then ['_', 'A', 'N', 'D', '_'] else [c])

/-- ASCII uppercase of a character list (Python str.upper on the
identifier alphabet). -/
def upperChars (l : List Char) : List Char := l.map Char.toUpper

/-- ASCII lowercase of a character list. -/
def lowerChars (l : List Char) : List Char := l.map Char.toLower

/-- Python str.title over the sanitised alphabet: a letter is
uppercased when the previous character is not a letter, lowercased
otherwise. -/
def titleChars : List Char → Bool → List Char
  | [], _ => []
  | c :: rest, prevAlpha =>
    let isAlpha := ('a' ≤ c && c ≤ 'z') || ('A' ≤ c && c ≤ 'Z')
    let c' := if isAlpha then (if prevAlpha then c.toLower else c.toUpper)
      else c
    c' :: titleChars rest isAlpha

/-- sanitize_for_identifier (utils/sanitize.py): accent strip,
whitespace strip, `&` expansion, non-word collapse, digit-prefix guard,
underscore cleanup, then the requested casing. -/
def sanitize_for_identifier (name : String) (style : String) : String :=
  let s0 := stripAccents name
  let s1 := (pyStrip s0).data
  let s2 := replaceAmp s1
  let s3 := collapseNonWord s2 false
  let s4 := match s3 with
    | c :: _ => if '0' ≤ c && c ≤ '9' then '_' :: s3 else s3
    | [] => s3
  let s5 := stripUnderscores s4
  let s6 := collapseUnderscores s5 false
  if style == "title" then ⟨titleChars s6 false⟩
  else if style == "upper" then ⟨upperChars s6⟩
  else if style == "lower" then ⟨lowerChars s6⟩
  else ⟨s6⟩

end Sanitize

-- ===================================================================
-- workflow/pipeline.py — candidate collection and filtering
-- ===================================================================

namespace Candidates

/-- CandidateType (models/base.py): a novel type pending Arbiter
review. -/
structure CandidateType where
  kind : String
  label : String
  definition : String
  source_description : String := ""
deriving DecidableEq, Repr

/-- One harvest step: append the candidate and record its key when the
label is truthy and the (kind, label) key is unseen. -/
def harvestItem (kind label definition desc : String)
    (acc : List CandidateType × List (String × String)) :
    List CandidateType × List (String × String) :=
  let (cands, seen) := acc
  if label != "" && !(seen.contains (kind, label)) then
    (cands ++ [⟨kind, label, definition, desc⟩], (kind, label) :: seen)
  else (cands, seen)

/-- The candidate harvest of Pipeline._collect_candidates over one
relation: its relation type, every role entity label, then the inline
candidate entity types, deduplicated through the shared seen set. -/
def harvestRelation (rel : Valid.Relation)
    (acc : List CandidateType × List (String × String)) :
    List CandidateType × List (String × String) :=
  let desc := strTake rel.description 200
  let acc1 := harvestItem "relation" (rel.relation_type.label.getD "")
    rel.relation_type.definition desc acc
  let acc2 := rel.roles.all_entities.foldl
    (fun a e => harvestItem "entity" e.label e.definition desc a) acc1
  rel.roles.candidate_entity_types.foldl
    (fun a et => harvestItem "entity" et.label et.definition desc a) acc2

/-- The harvest loop over the relation batch. -/
def harvest (rels : List Valid.Relation) : List CandidateType :=
  (rels.foldl (fun a r => harvestRelation r a) ([], [])).1

/-- The normalised known labels of one kind, as Stage 1 computes them
from the ontology snapshot. -/
def normKnown (ontology : Option Onto.OntologySchema) (kind : String) :
    List String :=
  match ontology with
  | none => []
  | some o =>
    (if kind == "relation" then o.relation_types else o.entity_types).map
      (fun t => Sanitize.sanitize_for_identifier t.label "upper")

/-- Stage 1 of Pipeline._collect_candidates: drop every harvested
candidate whose normalised label matches a normalised existing ontology
label of the same kind. -/
def stage1 (ontology : Option Onto.OntologySchema)
    (rels : List Valid.Relation) : List CandidateType :=
  (harvest rels).filter (fun c =>
    !((normKnown ontology c.kind).contains
      (Sanitize.sanitize_for_identifier c.label "upper")))

/-- Pipeline._embedding_filter_candidates: the auto-merged candidates.
Empty without an ontology or without existing types; otherwise the
candidates whose best cosine similarity against any existing type
reaches 0.90.  `sims` is the candidate-by-existing-type similarity
matrix from the external embedding call (one row per candidate). -/
def embedding_filter_candidates (ontology : Option Onto.OntologySchema)
    (candidates : List CandidateType) (sims : List (List ℚ)) :
    List CandidateType :=
  match ontology with
  | none => []
  | some o =>
    if o.relation_types.isEmpty && o.entity_types.isEmpty then []
    else
      (candidates.zip sims).filterMap (fun p =>
        if Drift.maxRow p.2 ≥ 9 / 10 then some p.1 else none)

/-- Pipeline._collect_candidates: harvest, Stage-1 label filter, then
removal of the Stage-2 auto-merged candidates; the remainder is the
list forwarded to the Arbiter. -/
def collect_candidates (ontology : Option Onto.OntologySchema)
    (rels : List Valid.Relation) (sims : List (List ℚ)) :
    List CandidateType :=
  let after_stage1 := stage1 ontology rels
  if after_stage1.isEmpty then []
  else
    let auto_merged := embedding_filter_candidates ontology after_stage1 sims
    after_stage1.filter (fun c => !(auto_merged.contains c))

end Candidates

-- ===================================================================
-- executors/entity_resolution.py
-- ===================================================================

namespace Res

/-- _Mention (executors/entity_resolution.py): an entity mention with
its relational context.  Phantom mentions (`is_known = true`) represent
pre-existing graph entities injected as anchors. -/
structure Mention where
  entity : Models.Entity
  relation_index : ℤ
  role : String
  norm_key : String := ""
  embed_text : String := ""
  is_known : Bool := false
deriving DecidableEq, Repr

/-- Run-collapsing of whitespace used by `" ".join(s.split())`. -/
def collapseWsRun : List Char → Bool → List Char
  | [], _ => []
  | c :: rest, inRun =>
    if isPyWhitespace c then
      if inRun then collapseWsRun rest true
      else ' ' :: collapseWsRun rest true
    else c :: collapseWsRun rest false

/-- _normalise (executors/entity_resolution.py): NFD accent strip,
lowercase, keep only `[a-z0-9\s]`, collapse whitespace. -/
def normalise (name : String) : String :=
  let s := Sanitize.stripAccents name
  let kept := (s.data.map Char.toLower).filter (fun c =>
    ('a' ≤ c && c ≤ 'z') || ('0' ≤ c && c ≤ '9') || isPyWhitespace c)
  let collapsed := collapseWsRun kept false
  ⟨((collapsed.dropWhile (fun c => c == ' ')).reverse.dropWhile
    (fun c => c == ' ')).reverse⟩

/-- MergeDecision (models/base.py): the structured response of the
Stage-3 arbitration LLM call. -/
structure MergeDecision where
  should_merge : Bool
  canonical_name : String
  canonical_label : String
  canonical_definition : String
  reasoning : String := ""
deriving DecidableEq, Repr

/-- ResolutionEntry (models/base.py). -/
structure ResolutionEntry where
  canonical_name : String
  canonical_label : String
  aliases : List String := []
  mention_count : ℕ := 0
  method : String
  canonical_source : String := "batch"
deriving DecidableEq, Repr

/-- _needs_arbitration: more than one distinct (label, name) pair. -/
def needs_arbitration (mentions : List Mention) : Bool :=
  ((mentions.map (fun m => (m.entity.label, m.entity.name))).dedup).length > 1

/-- Python `max(mentions, key=confidence)` keeping the first maximal
element. -/
def maxByConfidence : Mention → List Mention → Mention
  | best, [] => best
  | best, m :: rest =>
    maxByConfidence
      (if m.entity.confidence > best.entity.confidence then m else best) rest

/-- _pick_canonical (executors/entity_resolution.py): phantom (known)
mentions win unconditionally — the first known mention is taken as
already canonical; otherwise the highest-confidence mention.  Returns
(name, label, definition, from_graph); `none` models the empty-cluster
crash that no reachable call performs. -/
def pick_canonical : List Mention → Option (String × String × String × Bool)
  | [] => none
  | m :: ms =>
    let known := (m :: ms).filter (fun x => x.is_known)
    let best := match known with
      | k :: _ => k
      | [] => maxByConfidence m ms
    some (best.entity.name, best.entity.label, best.entity.definition,
      best.is_known)

/-- The mutation loop of _apply_merge: every non-phantom mention is
rewritten to the canonical (name, label, definition) and receives the
alias set accumulated so far; phantom mentions are skipped.  The alias
accumulator grows with each original name that differs from the
canonical.  `list(set(aliases))` is modelled by `dedup` (the Python
set order is unspecified). -/
def applyMergeGo (cn cl cd : String) :
    List Mention → List String → List Mention × List String
  | [], aliases => ([], aliases)
  | m :: rest, aliases =>
    let originalName := m.entity.name
    let aliases' := if originalName != cn then aliases ++ [originalName]
      else aliases
    let m' :=
      if m.is_known then m
      else
        { m with entity :=
          { m.entity with
            name := cn
            label := cl
            definition := cd
            aliasesMeta := if !aliases'.isEmpty then some aliases'.dedup
              else m.entity.aliasesMeta } }
    let acc := applyMergeGo cn cl cd rest aliases'
    (m' :: acc.1, acc.2)

/-- _apply_merge (executors/entity_resolution.py): rewrite the cluster
to the canonical entity, returning the rewritten mentions and
`list(set(aliases))`. -/
def apply_merge (mentions : List Mention) (cn cl cd : String) :
    List Mention × List String :=
  let acc := applyMergeGo cn cl cd mentions []
  (acc.1, acc.2.dedup)

/-- Append a mention under its key in an insertion-ordered group dict. -/
def groupAppend (d : List (String × List Mention)) (k : String)
    (m : Mention) : List (String × List Mention) :=
  if d.any (fun p => p.1 == k) then
    d.map (fun p => if p.1 == k then (p.1, p.2 ++ [m]) else p)
  else d ++ [(k, [m])]

/-- _group_by_norm_key (executors/entity_resolution.py). -/
def group_by_norm_key (ms : List Mention) : List (String × List Mention) :=
  ms.foldl (fun d m => groupAppend d m.norm_key m) []

/-- The Stage-3 body of resolve_entities for one candidate cluster: the
unambiguous fast path, the LLM-arbitrated path (the arbitration call is
the external boundary, supplied as `oracle`), and the
no-LLM confidence-heuristic path.  Returns the cluster after any merge
plus its report entries. -/
def processCluster (llmArb : Bool) (oracle : List Mention → MergeDecision)
    (cluster : List Mention) : List Mention × List ResolutionEntry :=
  if !needs_arbitration cluster then
    match pick_canonical cluster with
    | some (cn, cl, _, fromGraph) =>
      (cluster,
       [{ canonical_name := cn
          canonical_label := cl
          aliases := []
          mention_count := cluster.length
          method := "exact"
          canonical_source := if fromGraph then "graph" else "batch" }])
    | none => (cluster, [])
  else if llmArb then
    let d := oracle cluster
    if d.should_merge then
      let acc := apply_merge cluster d.canonical_name
        d.canonical_label d.canonical_definition
      let fromGraph := cluster.any (fun m =>
        m.is_known && m.entity.name == d.canonical_name)
      (acc.1,
       [{ canonical_name := d.canonical_name
          canonical_label := d.canonical_label
          aliases := acc.2
          mention_count := cluster.length
          method := "llm"
          canonical_source := if fromGraph then "graph" else "batch" }])
    else
      (cluster, (group_by_norm_key cluster).filterMap (fun p =>
        (pick_canonical p.2).map (fun q =>
          { canonical_name := q.1
            canonical_label := q.2.1
            aliases := []
            mention_count := p.2.length
            method := "llm_rejected"
            canonical_source := if q.2.2.2 then "graph" else "batch" })))
  else
    match pick_canonical cluster with
    | some (cn, cl, cd, fromGraph) =>
      let acc := apply_merge cluster cn cl cd
      (acc.1,
       [{ canonical_name := cn
          canonical_label := cl
          aliases := acc.2
          mention_count := cluster.length
          method := "embedding"
          canonical_source := if fromGraph then "graph" else "batch" }])
    | none => (cluster, [])

/-- The Stage-3 loop of resolve_entities over all candidate clusters
(Stages 1–2 group and cluster through the external embedding and
clustering calls; their output is the cluster list consumed here). -/
def resolveStage3 (llmArb : Bool) (oracle : List Mention → MergeDecision) :
    List (List Mention) → List (List Mention) × List ResolutionEntry
  | [] => ([], [])
  | cluster :: rest =>
    ((processCluster llmArb oracle cluster).1 ::
      (resolveStage3 llmArb oracle rest).1,
     (processCluster llmArb oracle cluster).2 ++
      (resolveStage3 llmArb oracle rest).2)

end Res

-- ===================================================================
-- models/graph.py
-- ===================================================================

namespace Graph

/-- Property values stored on nodes (a Python dict holds strings,
numbers and embedding vectors). -/
inductive PVal where
  | s (v : String)
  | i (v : ℤ)
  | q (v : ℚ)
  | vec (v : List ℚ)
deriving DecidableEq, Repr

/-- GraphNode (models/graph.py). -/
structure GraphNode where
  id : String
  labels : List String
  properties : List (String × PVal) := []
deriving DecidableEq, Repr

/-- GraphEdge (models/graph.py). -/
structure GraphEdge where
  source_id : String
  target_id : String
  relation_type : String
  properties : List (String × PVal) := []
deriving DecidableEq, Repr

/-- Mention (models/graph.py): a surface-form occurrence preserved for
provenance. -/
structure Mention where
  mention_id : String
  surface_form : String
  entity_name : String
  entity_label : String
  chunk_id : Option String := none
  role : String
deriving DecidableEq, Repr

/-- Key-ordered insertion used to model `json.dumps(..., sort_keys)`. -/
def insertByKey (p : String × String) :
    List (String × String) → List (String × String)
  | [] => [p]
  | q :: rest => if strLe p.1 q.1 then p :: q :: rest else q :: insertByKey p rest

/-- Sort payload pairs by key. -/
def sortByKey (l : List (String × String)) : List (String × String) :=
  l.foldr insertByKey []

/-- Render the sorted payload. -/
def renderPairs : List (String × String) → String
  | [] => ""
  | (k, v) :: rest => k ++ "=" ++ v ++ ";" ++ renderPairs rest

/-- generate_id (models/graph.py): the source hashes the sorted-key
JSON payload with SHA-256 and truncates; the hash is an external
library call, so the id is modelled as the injective deterministic
payload encoding. -/
def generate_id (data : List (String × String)) : String :=
  "id(" ++ renderPairs (sortByKey data) ++ ")"

/-- generate_mention_id (models/graph.py). -/
def generate_mention_id (chunk_id : Option String)
    (surface_form entity_name entity_label : String) : String :=
  generate_id [("chunk_id", chunk_id.getD ""), ("surface_form", surface_form),
    ("entity_name", entity_name), ("entity_label", entity_label)]

/-- _entity_node (models/graph.py). -/
def entity_node (entity : Models.Entity) (embedding : Option (List ℚ)) :
    GraphNode :=
  let props : List (String × PVal) :=
    [("name", .s entity.name), ("label_class", .s entity.label),
     ("definition", .s entity.definition),
     ("confidence", .q entity.confidence)] ++
    (match entity.aliasesMeta with
     | some al => [("aliases", .s (joinSep ", " al))]
     | none => []) ++
    (match embedding with
     | some e => [("embedding", .vec e)]
     | none => [])
  { id := generate_id [("label", entity.label), ("name", entity.name)]
    labels := ["Entity", entity.label]
    properties := props }

/-- _chunk_node (models/graph.py). -/
def chunk_node (chunk : Chunking.Chunk) (embedding : Option (List ℚ)) :
    GraphNode :=
  { id := chunk.chunk_id
    labels := ["Chunk"]
    properties :=
      [("document_id", .s chunk.document_id),
       ("chunk_index", .i chunk.index),
       ("text", .s chunk.text),
       ("start_char", .i chunk.start_char),
       ("end_char", .i chunk.end_char),
       ("token_count", .i chunk.token_count)] ++
      (match embedding with
       | some e => [("embedding", .vec e)]
       | none => []) }

/-- _mention_node (models/graph.py). -/
def mention_node (m : Mention) : GraphNode :=
  { id := m.mention_id
    labels := ["Mention"]
    properties :=
      [("surface_form", .s m.surface_form),
       ("entity_name", .s m.entity_name),
       ("entity_label", .s m.entity_label),
       ("role", .s m.role)] ++
      (if Valid.strOptTruthy m.chunk_id then
        [("chunk_id", .s (m.chunk_id.getD ""))]
      else []) }

/-- _relation_node (models/graph.py). -/
def relation_node (relation : Models.Relation) : GraphNode :=
  let props : List (String × PVal) :=
    [("description", .s relation.description),
     ("generic", .s relation.generic),
     ("specific", .s relation.specific),
     ("axis", .s relation.relation_type.axis),
     ("verb", .s relation.relation_type.verb),
     ("target_category", .s relation.relation_type.target_category),
     ("definition", .s relation.relation_type.definition),
     ("confidence", .q relation.confidence),
     ("quotes", .s (joinSep "\n---\n" relation.source.quotes)),
     ("document_id", .s relation.source.document_id)]
  let ls := relation.labels.filter (fun l => l != "")
  { id := generate_id
      [("verb", relation.relation_type.verb),
       ("target", relation.relation_type.target_category),
       ("description", relation.description),
       ("doc", relation.source.document_id)]
    labels := if ls.isEmpty then ["Relation"] else ls
    properties := props }

/-- Node-map insertion: the `nodes` dict keyed by id (replace in place,
else append). -/
def insertNode (ns : List GraphNode) (n : GraphNode) : List GraphNode :=
  if ns.any (fun m => m.id == n.id) then
    ns.map (fun m => if m.id == n.id then n else m)
  else ns ++ [n]

/-- Vector lookup in an optional embedding dict. -/
def dictGetVec (d : Option (List (String × List ℚ))) (k : String) :
    Option (List ℚ) :=
  match d with
  | some l => (l.find? (fun p => p.1 == k)).map (fun p => p.2)
  | none => none

/-- The chunk-node loop: Document → Chunk edges. -/
def addChunks (docNodeId : String)
    (chunkEmb : Option (List (String × List ℚ))) :
    List Chunking.Chunk → List GraphNode × List GraphEdge →
    List GraphNode × List GraphEdge
  | [], st => st
  | c :: rest, (ns, es) =>
    let node := chunk_node c (dictGetVec chunkEmb c.chunk_id)
    addChunks docNodeId chunkEmb rest
      (insertNode ns node,
       es ++ [{ source_id := docNodeId
                target_id := node.id
                relation_type := "HAS_CHUNK" }])

/-- The role map of one relation, flattened in source order. -/
def roleMap (relation : Models.Relation) : List (String × Models.Entity) :=
  relation.roles.agents.map (fun e => ("AGENT", e)) ++
  relation.roles.themes.map (fun e => ("THEME", e)) ++
  relation.roles.circumstances.map (fun e => (pyUpper e.role, e)) ++
  relation.roles.context.map (fun e => ("CONTEXT", e)) ++
  relation.roles.origin_destinations.map (fun e => (pyUpper e.role, e)) ++
  relation.roles.time_locations.map (fun e => (pyUpper e.role, e))

/-- The role → entity edge loop of one relation. -/
def addRoleEntities (relNodeId : String)
    (entityEmb : Option (List (String × List ℚ))) :
    List (String × Models.Entity) → List GraphNode × List GraphEdge →
    List GraphNode × List GraphEdge
  | [], st => st
  | (roleLabel, ent) :: rest, (ns, es) =>
    let entId := generate_id [("label", ent.label), ("name", ent.name)]
    let node := entity_node ent (dictGetVec entityEmb entId)
    addRoleEntities relNodeId entityEmb rest
      (insertNode ns node,
       es ++ [{ source_id := relNodeId
                target_id := node.id
                relation_type := roleLabel }])

/-- The relation loop: relation node, EXTRACTED_FROM edge (chunk when
the relation's chunk id is truthy and among the provided chunks, else
document), then the role edges. -/
def addRelations (docNodeId : String) (chunkIdSet : List String)
    (entityEmb : Option (List (String × List ℚ))) :
    List Models.Relation → List GraphNode × List GraphEdge →
    List GraphNode × List GraphEdge
  | [], st => st
  | r :: rest, (ns, es) =>
    let relNode := relation_node r
    let ns1 := insertNode ns relNode
    let extractedFrom : GraphEdge :=
      if Valid.strOptTruthy r.source.chunk_id &&
          chunkIdSet.contains (r.source.chunk_id.getD "") then
        { source_id := relNode.id
          target_id := r.source.chunk_id.getD ""
          relation_type := "EXTRACTED_FROM" }
      else
        { source_id := relNode.id
          target_id := docNodeId
          relation_type := "EXTRACTED_FROM" }
    let st2 := addRoleEntities relNode.id entityEmb (roleMap r)
      (ns1, es ++ [extractedFrom])
    addRelations docNodeId chunkIdSet entityEmb rest st2

/-- The mention loop: mention node, HAS_MENTION edge (chunk when known,
else document), REFERS_TO edge only when the canonical entity node id
is already present. -/
def addMentions (docNodeId : String) (chunkIdSet : List String) :
    List Mention → List GraphNode × List GraphEdge →
    List GraphNode × List GraphEdge
  | [], st => st
  | m :: rest, (ns, es) =>
    let mNode := mention_node m
    let ns1 := insertNode ns mNode
    let hasMention : GraphEdge :=
      if Valid.strOptTruthy m.chunk_id &&
          chunkIdSet.contains (m.chunk_id.getD "") then
        { source_id := m.chunk_id.getD ""
          target_id := mNode.id
          relation_type := "HAS_MENTION" }
      else
        { source_id := docNodeId
          target_id := mNode.id
          relation_type := "HAS_MENTION" }
    let entId := generate_id
      [("label", m.entity_label), ("name", m.entity_name)]
    let refersTo : List GraphEdge :=
      if ns1.any (fun n => n.id == entId) then
        [{ source_id := mNode.id
           target_id := entId
           relation_type := "REFERS_TO" }]
      else []
    addMentions docNodeId chunkIdSet rest
      (ns1, es ++ [hasMention] ++ refersTo)

/-- build_graph_elements (models/graph.py): Document node, chunk nodes
with HAS_CHUNK edges, relation nodes with EXTRACTED_FROM and role
edges, then mention nodes with HAS_MENTION and REFERS_TO edges. -/
def build_graph_elements (relations : List Models.Relation)
    (document_id : String)
    (entity_embeddings : Option (List (String × List ℚ)))
    (chunks : Option (List Chunking.Chunk))
    (chunk_embeddings : Option (List (String × List ℚ)))
    (mentions : Option (List Mention)) :
    List GraphNode × List GraphEdge :=
  let docNode : GraphNode :=
    { id := generate_id [("document_id", document_id)]
      labels := ["Document"]
      properties := [("document_id", .s document_id)] }
  let chunkIdSet := (chunks.getD []).map (fun c => c.chunk_id)
  let st1 := addChunks docNode.id chunk_embeddings (chunks.getD [])
    ([docNode], [])
  let st2 := addRelations docNode.id chunkIdSet entity_embeddings
    relations st1
  addMentions docNode.id chunkIdSet (mentions.getD []) st2

/-- Some node in the list carries the given id. -/
def idIn (ns : List GraphNode) (x : String) : Prop :=
  ∃ m ∈ ns, m.id = x

/-- Both endpoints of the edge name a node in the list. -/
def edgeOk (ns : List GraphNode) (e : GraphEdge) : Prop :=
  idIn ns e.source_id ∧ idIn ns e.target_id

end Graph

-- ===================================================================
-- Concrete sample inputs used by the concrete-instance theorems
-- ===================================================================

namespace Samples

/-- An agent-role entity. -/
def eA : Models.Entity :=
  { label := "Company", name := "Acme", definition := "a firm"
    role := "agent" }

/-- A theme-role entity. -/
def eT : Models.Entity :=
  { label := "Product", name := "Widget", definition := "a thing"
    role := "theme" }

/-- One well-formed evidence item. -/
def ev1 : Valid.Evidence :=
  { quote := "Acme manufactures the Widget for the market." }

/-- A source with one non-blank quote. -/
def src1 : Valid.Source := { document_id := "doc1", evidence := [ev1] }

/-- A well-formed relation. -/
def r1 : Valid.Relation :=
  { roles := { agents := [eA], themes := [eT] }, source := src1
    generic := "Company MAKES Product" }

/-- A relation with zero agents. -/
def r2 : Valid.Relation :=
  { roles := { agents := [], themes := [eT] }, source := src1
    generic := "NOAGENT" }

/-- Another well-formed relation. -/
def r3 : Valid.Relation :=
  { roles := { agents := [eA], themes := [eT] }, source := src1
    generic := "R3" }

/-- The known graph entity behind the phantom mention. -/
def phantomE : Models.Entity :=
  { label := "Company", name := "Acme Corp", definition := "known" }

/-- A phantom mention injected from the graph. -/
def phantomM : Res.Mention :=
  { entity := phantomE, relation_index := -1, role := "known"
    is_known := true }

/-- A 0.9 confidence value as a normalised rational literal. -/
def conf910 : ℚ := ⟨9, 10, by norm_num, by norm_num⟩

/-- The freshly-extracted entity of the same company. -/
def newE : Models.Entity :=
  { label := "Company", name := "Acme", definition := "new"
    confidence := conf910 }

/-- A freshly-extracted mention of the same company. -/
def newM : Res.Mention :=
  { entity := newE, relation_index := 0, role := "agent" }

/-- An arbitration response choosing the new mention's surface form as
canonical. -/
def oracleNew : List Res.Mention → Res.MergeDecision := fun _ =>
  { should_merge := true, canonical_name := "Acme"
    canonical_label := "Company", canonical_definition := "merged" }

/-- An ontology with a single relation type. -/
def ontoA : Onto.OntologySchema :=
  { relation_types := [{ label := "L", definition := "D" }] }

/-- An ontology holding the normalised form of a candidate label. -/
def ontoB : Onto.OntologySchema :=
  { relation_types := [{ label := "NEGOTIATE_CONTRACT", definition := "x" }] }

/-- A candidate whose label normalises to an existing ontology label. -/
def candNeg : Candidates.CandidateType :=
  { kind := "relation", label := "Negotiate Contract", definition := "d" }

/-- A 40-character document text. -/
def t40 : String := "0123456789012345678901234567890123456789"

/-- The same text with a trailing space: its stripped form is a
substring of `t40` although the raw string is not. -/
def q41 : String := t40 ++ " "

/-- A chunk for the graph-builder instances. -/
def gChunk : Chunking.Chunk :=
  { chunk_id := "ck1", document_id := "doc1", index := 0, text := "text"
    start_char := 0, end_char := 4, token_count := 4 }

/-- The HAS_CHUNK edge produced for `gChunk` under document `doc1`. -/
def hcEdge : Graph.GraphEdge :=
  { source_id := "id(document_id=doc1;)", target_id := "ck1"
    relation_type := "HAS_CHUNK" }

end Samples

-- ===================================================================
-- Theorems
-- ===================================================================

/-- C7: apply_arbiter_decisions is pure (the embedding is a total
function of its arguments and the input schema value is only read):
the returned schema's version is the previous version plus 1 (1 with
no previous ontology), its parent_version is the previous version
(none with no previous), its staleness counter is 0, and is_stale
holds exactly when the counter has reached the threshold. -/
theorem C7_apply_arbiter_pure_versioning :
    (∀ (ds : List Onto.ArbiterDecision) (o : Onto.OntologySchema),
      (Onto.apply_arbiter_decisions ds (some o)).version = o.version + 1 ∧
      (Onto.apply_arbiter_decisions ds (some o)).parent_version =
        some o.version ∧
      (Onto.apply_arbiter_decisions ds
        (some o)).documents_since_last_negotiation = 0) ∧
    (∀ ds : List Onto.ArbiterDecision,
      (Onto.apply_arbiter_decisions ds none).version = 1 ∧
      (Onto.apply_arbiter_decisions ds none).parent_version = none ∧
      (Onto.apply_arbiter_decisions ds
        none).documents_since_last_negotiation = 0) ∧
    (∀ (o : Onto.OntologySchema) (t : ℤ),
      Onto.is_stale o t = true ↔
        t ≤ o.documents_since_last_negotiation) := by
  refine ⟨fun ds o => ⟨rfl, rfl, rfl⟩, fun ds => ⟨rfl, rfl, rfl⟩,
    fun o t => ?_⟩
  simp [Onto.is_stale, ge_iff_le]

/-- C5: drift-based renegotiation: always renegotiate with no ontology
or no relation types; never on drift alone for batches under 10
relations; for batches of 10 or more, renegotiate exactly when
1 minus the mean best-match cosine similarity reaches 0.25. -/
theorem C5_drift_renegotiation_policy :
    (∀ (rt : List String) (sims : List (List ℚ)),
      Drift.should_negotiate_by_drift none rt sims = true) ∧
    (∀ (o : Onto.OntologySchema) (rt : List String)
      (sims : List (List ℚ)), o.relation_types = [] →
      Drift.should_negotiate_by_drift (some o) rt sims = true) ∧
    (∀ (o : Onto.OntologySchema) (rt : List String)
      (sims : List (List ℚ)), o.relation_types ≠ [] → rt.length < 10 →
      Drift.should_negotiate_by_drift (some o) rt sims = false) ∧
    (∀ (o : Onto.OntologySchema) (rt : List String)
      (sims : List (List ℚ)), o.relation_types ≠ [] → 10 ≤ rt.length →
      (Drift.should_negotiate_by_drift (some o) rt sims = true ↔
        1 / 4 ≤ 1 - Drift.meanQ (sims.map Drift.maxRow))) := by
  refine ⟨fun rt sims => rfl, fun o rt sims h => ?_,
    fun o rt sims h1 h2 => ?_, fun o rt sims h1 h2 => ?_⟩
  · simp [Drift.should_negotiate_by_drift, h]
  · simp [Drift.should_negotiate_by_drift, h1, h2]
  · have hne : rt.isEmpty = false := by
      rcases rt with _ | _
      · simp at h2
      · simp
    have h1' : o.relation_types.isEmpty = false := by
      rcases hrt : o.relation_types with _ | _
      · exact absurd hrt h1
      · simp
    have hlt : ¬ rt.length < 10 := by omega
    simp only [Drift.should_negotiate_by_drift, Drift.compute_drift_score,
      h1', hne, hlt, if_false, Bool.or_self, Bool.false_eq_true,
      decide_eq_true_eq, ge_iff_le]
    rw [le_sup_iff]
    constructor
    · rintro (hbad | hgood)
      · norm_num at hbad
      · exact hgood
    · exact fun hgood => Or.inr hgood

/-- C5 witness: the drift threshold equivalence at a ten-relation batch
with zero similarities. -/
theorem C5_drift_renegotiation_policy_witness :
    (Samples.ontoA.relation_types ≠ []) ∧
    (10 ≤ (List.replicate 10 "t").length) ∧
    (Drift.should_negotiate_by_drift (some Samples.ontoA)
      (List.replicate 10 "t") (List.replicate 10 [(0 : ℚ)]) = true ↔
      1 / 4 ≤ 1 - Drift.meanQ ((List.replicate 10 [(0 : ℚ)]).map
        Drift.maxRow)) :=
  ⟨by decide, by decide,
   C5_drift_renegotiation_policy.2.2.2 Samples.ontoA
     (List.replicate 10 "t") (List.replicate 10 [(0 : ℚ)]) (by decide)
     (by decide)⟩

/-- C3 counterexample: a Roles value with zero agents cannot be
constructed — pydantic validation rejects the empty agents list at
construction time, so a Relation with zero agents is not constructible
either. -/
theorem C3_counterexample :
    Models.mkRoles [] [Samples.eT] [] [] [] [] [] =
      Except.error
        "agents: List should have at least 1 item after validation" := by
  rfl

/-- C3 (amended): Roles construction succeeds exactly when both the
agents and the themes list are non-empty (the ≥1 requirement IS
enforced at object construction), and check_has_agent_and_theme emits
one error-severity violation per empty list when evaluated on a
relation value with empty role lists. -/
theorem C3_agent_theme_cardinality :
    (∀ (ag th ci co od tl : List Models.Entity)
      (ce : List Models.EntityType),
      (∃ r, Models.mkRoles ag th ci co od tl ce = Except.ok r) ↔
        (ag ≠ [] ∧ th ≠ [])) ∧
    (∀ rel : Valid.Relation,
      (Valid.check_has_agent_and_theme rel).length =
        (if rel.roles.agents = [] then 1 else 0) +
        (if rel.roles.themes = [] then 1 else 0) ∧
      (Valid.check_has_agent_and_theme rel).all
        (fun v => v.severity == "error") = true) := by
  constructor
  · intro ag th ci co od tl ce
    unfold Models.mkRoles
    rcases ag with _ | ⟨a, ag⟩
    · simp
    · rcases th with _ | ⟨t, th⟩
      · simp
      · simp
  · intro rel
    unfold Valid.check_has_agent_and_theme
    rcases h1 : rel.roles.agents with _ | _ <;>
      rcases h2 : rel.roles.themes with _ | _ <;>
        simp [h1, h2]

/-- C9 batching invariant of the flush loop: starting from a state
whose current batch satisfies the budget-or-oversized-singleton
property, every emitted batch satisfies it, and the emitted batches
flatten to the pending texts appended to the current batch. -/
theorem batchGo_spec (count : String → ℕ) (budget : ℕ) :
    ∀ (rest cur : List String) (curTok : ℕ),
      Emb.batchTokens count cur = curTok →
      (curTok ≤ budget ∨ ∃ t, cur = [t] ∧ budget < count t) →
      (∀ b ∈ Emb.batchGo count budget rest cur curTok,
        Emb.batchTokens count b ≤ budget ∨
          ∃ t, b = [t] ∧ budget < count t) ∧
      (Emb.batchGo count budget rest cur curTok).flatten = cur ++ rest := by
  intro rest
  induction rest with
  | nil =>
    intro cur curTok htok hinv
    constructor
    · intro b hb
      unfold Emb.batchGo at hb
      split at hb
      · simp at hb
      · simp only [List.mem_singleton] at hb
        subst hb
        rcases hinv with hc | hc
        · exact Or.inl (le_of_eq_of_le htok hc)
        · exact Or.inr hc
    · unfold Emb.batchGo
      split
      · rename_i hcur
        rw [List.isEmpty_iff] at hcur
        simp [hcur]
      · simp
  | cons t rest ih =>
    intro cur curTok htok hinv
    unfold Emb.batchGo
    dsimp only
    split
    · have hrecinv : count t ≤ budget ∨
          ∃ u, ([t] : List String) = [u] ∧ budget < count u := by
        by_cases hc : count t ≤ budget
        · exact Or.inl hc
        · exact Or.inr ⟨t, rfl, by omega⟩
      have hrec := ih [t] (count t) (by simp [Emb.batchTokens]) hrecinv
      constructor
      · intro b hb
        rcases List.mem_cons.mp hb with hb | hb
        · subst hb
          rcases hinv with hc | hc
          · exact Or.inl (le_of_eq_of_le htok hc)
          · exact Or.inr hc
        · exact hrec.1 b hb
      · simp [hrec.2]
    · rename_i hstay
      have hcase : cur = [] ∨ curTok + count t ≤ budget := by
        by_cases hc : cur.isEmpty = true
        · exact Or.inl (List.isEmpty_iff.mp hc)
        · right
          simp only [Bool.not_eq_true] at hc
          by_contra hgt
          push_neg at hgt
          exact hstay (by simp [hc, hgt])
      have hnew : Emb.batchTokens count (cur ++ [t]) = curTok + count t := by
        simp [Emb.batchTokens, ← htok]
      have hinv' : curTok + count t ≤ budget ∨
          ∃ u, cur ++ [t] = [u] ∧ budget < count u := by
        rcases hcase with hc | hc
        · subst hc
          have hz : curTok = 0 := by
            simp [Emb.batchTokens] at htok
            omega
          by_cases hb : count t ≤ budget
          · left
            omega
          · right
            exact ⟨t, by simp, by omega⟩
        · exact Or.inl hc
      have hrec := ih (cur ++ [t]) (curTok + count t) hnew hinv'
      refine ⟨hrec.1, ?_⟩
      rw [hrec.2]
      simp

/-- C9 counterexample: a single text whose token count alone exceeds
the budget is placed in its own over-budget batch, and that batch is
what compute_embeddings sends to the API — there is no local hard
error. -/
theorem C9_counterexample :
    Emb.compute_batches ["aaa"] String.length 2 = [["aaa"]] ∧
    Emb.batchTokens String.length ["aaa"] = 3 ∧ (2 : ℕ) < 3 := by
  refine ⟨by decide, by decide, by omega⟩

/-- C9 (amended): every batch built by compute_embeddings either fits
the per-call budget or is a singleton whose lone text alone exceeds
the budget (such a batch is still sent); the batches partition the
input text list exactly. -/
theorem C9_token_aware_batching :
    ∀ (texts : List String) (count : String → ℕ) (budget : ℕ),
      (∀ b ∈ Emb.compute_batches texts count budget,
        Emb.batchTokens count b ≤ budget ∨
          ∃ t, b = [t] ∧ budget < count t) ∧
      (Emb.compute_batches texts count budget).flatten = texts := by
  intro texts count budget
  unfold Emb.compute_batches
  by_cases h : texts.isEmpty
  · rw [List.isEmpty_iff] at h
    simp [h]
  · simp only [h, Bool.false_eq_true, if_false]
    have := batchGo_spec count budget texts [] 0
      (by simp [Emb.batchTokens]) (Or.inl (by omega))
    simpa using this

/-- The quotes field validator characterised: it succeeds exactly when
every stripped quote is long enough and (when a document text is in
scope) an exact substring of it, returning the stripped quotes. -/
theorem validateQuotes_toOption (t : String) :
    ∀ qs : List String,
      (Models.validateQuotes t qs).toOption =
        if (∀ q ∈ qs, 40 ≤ (pyStrip q).length ∧
            (t ≠ "" → strContains t (pyStrip q) = true)) then
          some (qs.map pyStrip)
        else none := by
  intro qs
  induction qs with
  | nil => simp [Models.validateQuotes, Except.toOption]
  | cons q rest ih =>
    unfold Models.validateQuotes
    by_cases h1 : (pyStrip q).length < 40
    · rw [if_pos h1]
      have hcond : ¬ ∀ q' ∈ q :: rest, 40 ≤ (pyStrip q').length ∧
          (t ≠ "" → strContains t (pyStrip q') = true) := by
        intro hall
        have := (hall q (List.mem_cons_self q rest)).1
        omega
      rw [if_neg hcond]
      rfl
    · rw [if_neg h1]
      by_cases h2 : (t != "" && !(strContains t (pyStrip q))) = true
      · rw [if_pos h2]
        simp only [Bool.and_eq_true, bne_iff_ne, ne_eq,
          Bool.not_eq_true'] at h2
        have hcond : ¬ ∀ q' ∈ q :: rest, 40 ≤ (pyStrip q').length ∧
            (t ≠ "" → strContains t (pyStrip q') = true) := by
          intro hall
          have := (hall q (List.mem_cons_self q rest)).2 h2.1
          rw [h2.2] at this
          exact Bool.false_ne_true this
        rw [if_neg hcond]
        rfl
      · rw [if_neg h2]
        have hq : 40 ≤ (pyStrip q).length ∧
            (t ≠ "" → strContains t (pyStrip q) = true) := by
          constructor
          · omega
          · intro ht
            by_contra hcs
            apply h2
            simp only [Bool.and_eq_true, bne_iff_ne, ne_eq,
              Bool.not_eq_true']
            exact ⟨ht, by simpa using hcs⟩
        rcases hv : Models.validateQuotes t rest with e | cleaned
        · rw [hv] at ih
          have hrest : ¬ ∀ q' ∈ rest, 40 ≤ (pyStrip q').length ∧
              (t ≠ "" → strContains t (pyStrip q') = true) := by
            intro hall
            rw [if_pos hall] at ih
            exact Option.noConfusion ih
          have hcond : ¬ ∀ q' ∈ q :: rest, 40 ≤ (pyStrip q').length ∧
              (t ≠ "" → strContains t (pyStrip q') = true) := by
            intro hall
            exact hrest (fun q' hq' => hall q' (List.mem_cons_of_mem q hq'))
          rw [if_neg hcond]
          rfl
        · rw [hv] at ih
          have hrest : ∀ q' ∈ rest, 40 ≤ (pyStrip q').length ∧
              (t ≠ "" → strContains t (pyStrip q') = true) := by
            by_contra hno
            rw [if_neg hno] at ih
            exact Option.noConfusion ih
          have hcl : cleaned = rest.map pyStrip := by
            rw [if_pos hrest] at ih
            simpa [Except.toOption] using ih
          have hcond : ∀ q' ∈ q :: rest, 40 ≤ (pyStrip q').length ∧
              (t ≠ "" → strContains t (pyStrip q') = true) := by
            intro q' hq'
            rcases List.mem_cons.mp hq' with h | h
            · exact h ▸ hq
            · exact hrest q' h
          rw [if_pos hcond]
          simp [Except.toOption, hcl]

/-- C8 counterexample: constructing a Source with an empty quotes list
raises although no quote is short or non-verbatim (the quotes field
itself carries min_length 1); and a quote whose raw form is not a
substring of the document text still validates when its stripped form
is, so the substring gate applies to stripped quotes. -/
theorem C8_counterexample :
    Models.mkSource "d" none [] none =
      Except.error
        "quotes: List should have at least 1 item after validation" ∧
    (Models.mkSource "d" none [Samples.q41]
      (some Samples.t40)).toOption.map (fun s => s.quotes) =
        some [Samples.t40] ∧
    strContains Samples.t40 Samples.q41 = false := by
  refine ⟨rfl, by decide, by decide⟩

/-- C8 (amended): constructing a Source raises exactly when the quotes
list is empty, some quote has stripped length below 40, or a non-empty
document_text is supplied in the validation context and some stripped
quote is not an exact substring of it; on success every stored quote
is the stripped form of the input quote. -/
theorem C8_source_quote_gate :
    ∀ (d : String) (c : Option String) (qs : List String)
      (ctx : Option String),
      (Models.mkSource d c qs ctx).toOption.map (fun s => s.quotes) =
        if qs ≠ [] ∧ ∀ q ∈ qs, 40 ≤ (pyStrip q).length ∧
            ((ctx.getD "") ≠ "" →
              strContains (ctx.getD "") (pyStrip q) = true) then
          some (qs.map pyStrip)
        else none := by
  intro d c qs ctx
  unfold Models.mkSource
  by_cases hq : qs.length < 1
  · rw [if_pos hq]
    have hnil : qs = [] := by
      rcases qs with _ | _
      · rfl
      · simp at hq
    subst hnil
    simp [Except.toOption]
  · rw [if_neg hq]
    have hne : qs ≠ [] := by
      intro h
      subst h
      simp at hq
    have h := validateQuotes_toOption (ctx.getD "") qs
    rcases hv : Models.validateQuotes (ctx.getD "") qs with e | cleaned
    · rw [hv] at h
      have hno : ¬ ∀ q ∈ qs, 40 ≤ (pyStrip q).length ∧
          ((ctx.getD "") ≠ "" →
            strContains (ctx.getD "") (pyStrip q) = true) := by
        intro hall
        rw [if_pos hall] at h
        exact Option.noConfusion h
      rw [if_neg (fun hand => hno hand.2)]
      rfl
    · rw [hv] at h
      have hall : ∀ q ∈ qs, 40 ≤ (pyStrip q).length ∧
          ((ctx.getD "") ≠ "" →
            strContains (ctx.getD "") (pyStrip q) = true) := by
        by_contra hno
        rw [if_neg hno] at h
        exact Option.noConfusion h
      have hcl : cleaned = qs.map pyStrip := by
        rw [if_pos hall] at h
        simpa [Except.toOption] using h
      rw [if_pos ⟨hne, hall⟩]
      simp [Except.toOption, hcl]

/-- C9 witness: the amended invariant evaluated on a concrete batch of
the concrete run. -/
theorem C9_token_aware_batching_witness :
    (["aa"] ∈ Emb.compute_batches ["aa", "b"] String.length 2) ∧
    (Emb.batchTokens String.length ["aa"] ≤ 2 ∨
      ∃ t, (["aa"] : List String) = [t] ∧ 2 < String.length t) :=
  ⟨by decide,
   (C9_token_aware_batching ["aa", "b"] String.length 2).1 ["aa"]
     (by decide)⟩

/-- C6: every candidate whose normalised label equals a normalised
existing ontology label of its kind is dropped at Stage 1 and never
reaches the Arbiter list; and with an ontology holding no existing
types, the Stage-2 embedding filter drops nothing, so every Stage-1
survivor is forwarded. -/
theorem C6_candidate_type_filter :
    (∀ (ont : Option Onto.OntologySchema) (rels : List Valid.Relation)
      (sims : List (List ℚ)) (c : Candidates.CandidateType),
      (Candidates.normKnown ont c.kind).contains
        (Sanitize.sanitize_for_identifier c.label "upper") = true →
      c ∉ Candidates.collect_candidates ont rels sims) ∧
    (∀ (o : Onto.OntologySchema) (rels : List Valid.Relation)
      (sims : List (List ℚ)),
      o.relation_types = [] → o.entity_types = [] →
      Candidates.collect_candidates (some o) rels sims =
        Candidates.stage1 (some o) rels) := by
  constructor
  · intro ont rels sims c hcont hmem
    unfold Candidates.collect_candidates at hmem
    dsimp only at hmem
    split at hmem
    · exact absurd hmem (List.not_mem_nil c)
    · have hc1 : c ∈ Candidates.stage1 ont rels :=
        (List.mem_filter.mp hmem).1
      unfold Candidates.stage1 at hc1
      have h2 := (List.mem_filter.mp hc1).2
      rw [hcont] at h2
      exact Bool.false_ne_true h2
  · intro o rels sims h1 h2
    unfold Candidates.collect_candidates
    dsimp only
    split
    · rename_i hemp
      rw [List.isEmpty_iff] at hemp
      rw [hemp]
    · have hef : Candidates.embedding_filter_candidates (some o)
          (Candidates.stage1 (some o) rels) sims = [] := by
        unfold Candidates.embedding_filter_candidates
        simp [h1, h2]
      rw [hef]
      apply List.filter_eq_self.mpr
      intro c _
      simp [List.contains]

/-- C6 witness: a candidate that normalises onto an existing ontology
label is never forwarded. -/
theorem C6_candidate_type_filter_witness :
    ((Candidates.normKnown (some Samples.ontoB)
      Samples.candNeg.kind).contains
        (Sanitize.sanitize_for_identifier Samples.candNeg.label
          "upper") = true) ∧
    Samples.candNeg ∉ Candidates.collect_candidates (some Samples.ontoB)
      [] [] :=
  ⟨by decide,
   C6_candidate_type_filter.1 (some Samples.ontoB) [] [] Samples.candNeg
     (by decide)⟩

/-- The mutation loop of _apply_merge preserves length and leaves every
phantom mention exactly as it was. -/
theorem applyMergeGo_phantoms (cn cl cd : String) :
    ∀ (ms : List Res.Mention) (al : List String),
      ((Res.applyMergeGo cn cl cd ms al).1).length = ms.length ∧
      ∀ p ∈ ((Res.applyMergeGo cn cl cd ms al).1).zip ms,
        p.2.is_known = true → p.1 = p.2 := by
  intro ms
  induction ms with
  | nil =>
    intro al
    simp [Res.applyMergeGo]
  | cons m rest ih =>
    intro al
    unfold Res.applyMergeGo
    dsimp only
    constructor
    · simp [(ih _).1]
    · intro p hp
      rw [List.zip_cons_cons] at hp
      rcases List.mem_cons.mp hp with h | h
      · subst h
        dsimp only
        intro hk
        simp [hk]
      · exact (ih _).2 p h

/-- _apply_merge preserves length and leaves phantoms unchanged. -/
theorem apply_merge_phantoms (cluster : List Res.Mention)
    (cn cl cd : String) :
    ((Res.apply_merge cluster cn cl cd).1).length = cluster.length ∧
    ∀ p ∈ ((Res.apply_merge cluster cn cl cd).1).zip cluster,
      p.2.is_known = true → p.1 = p.2 := by
  unfold Res.apply_merge
  dsimp only
  exact applyMergeGo_phantoms cn cl cd cluster []

/-- Pairs drawn from a list zipped with itself are equal. -/
theorem zip_self_pairs {α : Type} :
    ∀ (l : List α), ∀ q ∈ l.zip l, q.1 = q.2 := by
  intro l
  induction l with
  | nil => simp
  | cons a rest ih =>
    intro q hq
    rw [List.zip_cons_cons] at hq
    rcases List.mem_cons.mp hq with h | h
    · subst h
      rfl
    · exact ih q h

/-- Every Stage-3 branch leaves phantom mentions untouched. -/
theorem processCluster_phantoms (llm : Bool)
    (oracle : List Res.Mention → Res.MergeDecision)
    (cluster : List Res.Mention) :
    ∀ q ∈ ((Res.processCluster llm oracle cluster).1).zip cluster,
      q.2.is_known = true → q.1 = q.2 := by
  intro q hq
  unfold Res.processCluster at hq
  split at hq
  · split at hq
    · exact fun _ => zip_self_pairs cluster q hq
    · exact fun _ => zip_self_pairs cluster q hq
  · split at hq
    · dsimp only at hq
      split at hq
      · dsimp only at hq
        exact (apply_merge_phantoms cluster _ _ _).2 q hq
      · exact fun _ => zip_self_pairs cluster q hq
    · split at hq
      · dsimp only at hq
        exact (apply_merge_phantoms cluster _ _ _).2 q hq
      · exact fun _ => zip_self_pairs cluster q hq

/-- C2 counterexample: under LLM arbitration the model-chosen canonical
is applied, so a cluster holding a phantom mention can receive a
canonical name that is not the phantom's — the phantom does not always
win. -/
theorem C2_counterexample :
    ((Res.resolveStage3 true Samples.oracleNew
      [[Samples.phantomM, Samples.newM]]).2.map
        (fun e => e.canonical_name)) = ["Acme"] ∧
    Samples.phantomM.is_known = true ∧
    Samples.phantomM.entity.name = "Acme Corp" ∧
    Samples.newM.is_known = false ∧
    ("Acme" : String) ≠ "Acme Corp" := by
  refine ⟨by decide, rfl, rfl, rfl, by decide⟩

/-- C2 (amended): whenever _pick_canonical chooses the canonical
(unambiguous clusters, the no-LLM fallback, and LLM-rejected
sub-groups), a phantom mention always wins over any newly-extracted
mention; under LLM arbitration the model decision supplies the
canonical instead.  In every branch, phantom mentions are never
modified by the resolution pass. -/
theorem C2_phantom_canonical_priority :
    (∀ (cluster : List Res.Mention) (cn cl cd : String) (fg : Bool),
      Res.pick_canonical cluster = some (cn, cl, cd, fg) →
      (∃ m ∈ cluster, m.is_known = true) →
      ∃ m ∈ cluster, m.is_known = true ∧ m.entity.name = cn ∧
        m.entity.label = cl ∧ m.entity.definition = cd ∧ fg = true) ∧
    (∀ (cluster : List Res.Mention) (cn cl cd : String),
      ((Res.apply_merge cluster cn cl cd).1).length = cluster.length ∧
      ∀ p ∈ ((Res.apply_merge cluster cn cl cd).1).zip cluster,
        p.2.is_known = true → p.1 = p.2) ∧
    (∀ (llm : Bool) (oracle : List Res.Mention → Res.MergeDecision)
      (clusters : List (List Res.Mention)),
      ∀ pr ∈ ((Res.resolveStage3 llm oracle clusters).1).zip clusters,
        ∀ q ∈ pr.1.zip pr.2, q.2.is_known = true → q.1 = q.2) := by
  refine ⟨?_, fun cluster cn cl cd => apply_merge_phantoms cluster cn cl cd,
    ?_⟩
  · rintro cluster cn cl cd fg hpick ⟨m0, hm0, hk0⟩
    rcases cluster with _ | ⟨m, ms⟩
    · exact absurd hpick (by simp [Res.pick_canonical])
    · unfold Res.pick_canonical at hpick
      dsimp only at hpick
      rcases hk : (m :: ms).filter (fun x => x.is_known) with _ | ⟨k, ks⟩
      · have : m0 ∈ (m :: ms).filter (fun x => x.is_known) :=
          List.mem_filter.mpr ⟨hm0, hk0⟩
        rw [hk] at this
        exact absurd this (List.not_mem_nil m0)
      · rw [hk] at hpick
        dsimp only at hpick
        have hkmem : k ∈ (m :: ms).filter (fun x => x.is_known) := by
          rw [hk]
          exact List.mem_cons_self k ks
        have hkin := List.mem_filter.mp hkmem
        injection hpick with h1
        injection h1 with hn h2
        injection h2 with hl h3
        injection h3 with hd hfg
        exact ⟨k, hkin.1, hkin.2, hn, hl, hd, hfg ▸ hkin.2⟩
  · intro llm oracle clusters
    induction clusters with
    | nil => simp [Res.resolveStage3]
    | cons c rest ih =>
      intro pr hpr
      unfold Res.resolveStage3 at hpr
      dsimp only at hpr
      rw [List.zip_cons_cons] at hpr
      rcases List.mem_cons.mp hpr with h | h
      · subst h
        exact processCluster_phantoms llm oracle c
      · exact ih pr h

/-- C2 witness: phantom-priority evaluated on a concrete two-mention
cluster. -/
theorem C2_phantom_canonical_priority_witness :
    (Res.pick_canonical [Samples.phantomM, Samples.newM] =
      some ("Acme Corp", "Company", "known", true)) ∧
    (∃ m ∈ [Samples.phantomM, Samples.newM], m.is_known = true) ∧
    (∃ m ∈ [Samples.phantomM, Samples.newM], m.is_known = true ∧
      m.entity.name = "Acme Corp" ∧ m.entity.label = "Company" ∧
      m.entity.definition = "known" ∧ (true : Bool) = true) :=
  ⟨by decide, by decide,
   C2_phantom_canonical_priority.1 [Samples.phantomM, Samples.newM]
     "Acme Corp" "Company" "known" true (by decide) (by decide)⟩

/-- The partition loop of Pipeline._validate characterised: the valid
component is the filter of relations without error violations and the
rejected component the filter of those with at least one. -/
theorem validateGo_spec (bl : List String)
    (dt ct : Option (List (String × String))) :
    ∀ rels : List Valid.Relation,
      (Valid.validateGo bl dt ct rels).1 =
        rels.filter (fun r => !Valid.relationHasError r bl dt ct) ∧
      (Valid.validateGo bl dt ct rels).2.2 =
        rels.filter (fun r => Valid.relationHasError r bl dt ct) := by
  intro rels
  induction rels with
  | nil => simp [Valid.validateGo]
  | cons r rest ih =>
    unfold Valid.validateGo
    dsimp only
    by_cases h : (Valid.run_symbolic_validation [r] bl
        Valid.confidenceThreshold dt ct).any
        (fun x => x.severity == "error") = true
    · have hre : Valid.relationHasError r bl dt ct = true := h
      rw [if_pos h]
      constructor
      · simp [List.filter_cons, hre, ih.1]
      · simp [List.filter_cons, hre, ih.2]
    · have hre : Valid.relationHasError r bl dt ct = false :=
        Bool.not_eq_true _ ▸ eq_false_of_ne_true h
      rw [if_neg h]
      constructor
      · simp [List.filter_cons, hre, ih.1]
      · simp [List.filter_cons, hre, ih.2]

/-- C1: Pipeline._validate partitions rather than aborts — a relation
is excluded from the valid list exactly when run_symbolic_validation
yields an error-severity violation for it, relations with only
warnings or no violations are retained, and one relation's rejection
never removes another (the valid list is a filter of the input).  On
three concrete relations of which exactly one has zero agents, exactly
that one is rejected, with one violation and one rejection counted. -/
theorem C1_validator_partition :
    (∀ (rels : List Valid.Relation) (bl : List String)
      (dt ct : Option (List (String × String))),
      (Valid.pipeline_validate rels bl dt ct).1 =
        rels.filter (fun r => !Valid.relationHasError r bl dt ct) ∧
      (Valid.pipeline_validate rels bl dt ct).2.2 =
        (rels.filter (fun r => Valid.relationHasError r bl dt ct)).length) ∧
    Valid.pipeline_validate [Samples.r1, Samples.r2, Samples.r3] [] none
      none = ([Samples.r1, Samples.r3], 1, 1) := by
  constructor
  · intro rels bl dt ct
    unfold Valid.pipeline_validate
    by_cases h : rels.isEmpty
    · rw [List.isEmpty_iff] at h
      subst h
      simp
    · simp only [h, Bool.false_eq_true, if_false]
      exact ⟨(validateGo_spec bl dt ct rels).1,
        by rw [(validateGo_spec bl dt ct rels).2]⟩
  · decide

/-- The hard-split cut always advances by at least one character when
the budget is positive. -/
theorem hardCut_pos (s : List Char) (maxT : ℕ) (hmt : 1 ≤ maxT) :
    0 < Chunking.hardCut s maxT := by
  unfold Chunking.hardCut
  generalize Chunking.lastSpaceIdx s (maxT - 200) maxT = o
  rcases o with _ | snap
  · dsimp only
    omega
  · dsimp only
    split <;> omega

/-- Every piece emitted by the hard-split loop stays within the token
budget (under the character tokenizer, a piece's token count is its
length). -/
theorem hardGo_piece_le :
    ∀ (n : ℕ) (s : List Char) (maxT : ℕ), s.length ≤ n → 1 ≤ maxT →
      ∀ p ∈ Chunking.hardGo s maxT, p.length ≤ maxT := by
  intro n
  induction n with
  | zero =>
    intro s maxT hlen hmt p hp
    have hs : s = [] := List.length_eq_zero.mp (Nat.le_zero.mp hlen)
    subst hs
    unfold Chunking.hardGo at hp
    rw [dif_neg (by omega : ¬ maxT = 0)] at hp
    rw [dif_pos (by simp [Chunking.tokenCount])] at hp
    simp at hp
    simp [hp]
  | succ n ih =>
    intro s maxT hlen hmt p hp
    unfold Chunking.hardGo at hp
    rw [dif_neg (by omega : ¬ maxT = 0)] at hp
    by_cases h2 : Chunking.tokenCount s ≤ maxT
    · rw [dif_pos h2] at hp
      simp only [List.mem_singleton] at hp
      subst hp
      exact h2
    · rw [dif_neg h2] at hp
      dsimp only at hp
      rcases List.mem_cons.mp hp with h | h
      · subst h
        simp only [List.length_take]
        omega
      · have hc := hardCut_pos s maxT hmt
        have hslen : maxT < s.length := by
          simpa [Chunking.tokenCount] using h2
        refine ih (s.drop (min (Chunking.hardCut s maxT) maxT)) maxT ?_ hmt
          p h
        simp only [List.length_drop]
        omega

/-- The greedy extension never pushes the accumulated window total past
the budget. -/
theorem greedyLen_sum :
    ∀ (rest : List ℕ) (acc maxT : ℕ), acc ≤ maxT →
      acc + (rest.take (Chunking.greedyLen rest acc maxT)).sum ≤ maxT := by
  intro rest
  induction rest with
  | nil =>
    intro acc maxT h
    simpa using h
  | cons c r ih =>
    intro acc maxT h
    unfold Chunking.greedyLen
    by_cases hc : acc + c > maxT
    · rw [if_pos hc]
      simpa using h
    · rw [if_neg hc]
      have hrec := ih (acc + c) maxT (by omega)
      rw [Nat.add_comm 1 (Chunking.greedyLen r (acc + c) maxT),
        List.take_succ_cons, List.sum_cons]
      omega

/-- A greedy window's token total stays within the budget provided
every sentence alone fits it. -/
theorem windowSum_le (toks : List ℕ) (maxT : ℕ)
    (hall : ∀ x ∈ toks, x ≤ maxT) :
    (toks.take (Chunking.windowLen toks maxT)).sum ≤ maxT := by
  rcases toks with _ | ⟨c, rest⟩
  · simp
  · have hc : c ≤ maxT := hall c (List.mem_cons_self c rest)
    unfold Chunking.windowLen
    dsimp only
    rw [Nat.add_comm 1 (Chunking.greedyLen rest c maxT),
      List.take_succ_cons, List.sum_cons]
    have := greedyLen_sum rest c maxT hc
    omega

/-- The cursor advance is positive for non-empty windows. -/
theorem stepLen_pos (wt : List ℕ) (ov wl : ℕ) (h : 1 ≤ wl) :
    1 ≤ Chunking.stepLen wt ov wl := by
  unfold Chunking.stepLen
  dsimp only
  split <;> omega

/-- Every chunk emitted by the window loop has token count within the
budget, provided every hard-split sentence alone fits it. -/
theorem chunkLoop_token_le :
    ∀ (n : ℕ) (sents : List (List Char)) (docId : String)
      (maxT ov ci sc : ℕ), sents.length ≤ n →
      (∀ x ∈ sents, x.length ≤ maxT) →
      ∀ ch ∈ Chunking.chunkLoop sents docId maxT ov ci sc,
        ch.token_count ≤ maxT := by
  intro n
  induction n with
  | zero =>
    intro sents docId maxT ov ci sc hlen hall ch hch
    have hs : sents = [] := List.length_eq_zero.mp (Nat.le_zero.mp hlen)
    subst hs
    unfold Chunking.chunkLoop at hch
    exact absurd hch (List.not_mem_nil ch)
  | succ n ih =>
    intro sents docId maxT ov ci sc hlen hall ch hch
    rcases sents with _ | ⟨s, rest⟩
    · unfold Chunking.chunkLoop at hch
      exact absurd hch (List.not_mem_nil ch)
    · unfold Chunking.chunkLoop at hch
      dsimp only at hch
      have htoks : ∀ x ∈ (s :: rest).map Chunking.tokenCount, x ≤ maxT := by
        intro x hx
        rcases List.mem_map.mp hx with ⟨y, hy, hxy⟩
        exact hxy ▸ hall y hy
      have hsum := windowSum_le ((s :: rest).map Chunking.tokenCount) maxT
        htoks
      split at hch
      · simp only [List.mem_singleton] at hch
        subst hch
        exact hsum
      · rcases List.mem_cons.mp hch with h | h
        · subst h
          exact hsum
        · have hw : 1 ≤ Chunking.windowLen
              ((s :: rest).map Chunking.tokenCount) maxT := by
            simp [Chunking.windowLen]
          have hstep := stepLen_pos
            (((s :: rest).map Chunking.tokenCount).take
              (Chunking.windowLen ((s :: rest).map Chunking.tokenCount)
                maxT)) ov
            (Chunking.windowLen ((s :: rest).map Chunking.tokenCount) maxT)
            hw
          refine ih _ docId maxT ov (ci + 1) _ ?_ ?_ ch h
          · simp only [List.length_drop, List.length_cons]
            simp only [List.length_cons] at hlen
            omega
          · intro x hx
            exact hall x (List.mem_of_mem_drop hx)

/-- C4: no chunk returned by chunk_document ever exceeds the token
budget — oversized sentence segments are hard-split first, and the
greedy window never extends past the budget — for every input text and
every positive max_tokens. -/
theorem C4_chunk_token_budget :
    ∀ (text documentId : String) (maxT ov : ℕ), 1 ≤ maxT →
      ∀ ch ∈ Chunking.chunk_document text documentId maxT ov,
        ch.token_count ≤ maxT := by
  intro text documentId maxT ov hmt ch hch
  unfold Chunking.chunk_document at hch
  split at hch
  · exact absurd hch (List.not_mem_nil ch)
  · refine chunkLoop_token_le
      ((Chunking.splitSentences text.data).flatMap
        (fun s => Chunking.hardSplitSegment s maxT)).length
      _ documentId maxT ov 0 0 le_rfl ?_ ch hch
    intro x hx
    rcases List.mem_flatMap.mp hx with ⟨seg, _, hxseg⟩
    exact hardGo_piece_le seg.length seg maxT le_rfl hmt x hxseg

/-- C4 witness: the budget bound at a concrete document and budget. -/
theorem C4_chunk_token_budget_witness :
    1 ≤ 5 ∧
    (∀ ch ∈ Chunking.chunk_document "One. Two. Three. Four." "d" 5 2,
      ch.token_count ≤ 5) :=
  ⟨by omega, C4_chunk_token_budget "One. Two. Three. Four." "d" 5 2
    (by omega)⟩

/-- Ids present before a node-map insertion stay present. -/
theorem insertNode_mono (ns : List Graph.GraphNode) (n : Graph.GraphNode)
    (x : String) (h : Graph.idIn ns x) :
    Graph.idIn (Graph.insertNode ns n) x := by
  rcases h with ⟨m, hm, hid⟩
  unfold Graph.insertNode
  by_cases hany : ns.any (fun m => m.id == n.id) = true
  · rw [if_pos hany]
    refine ⟨if m.id == n.id then n else m, List.mem_map_of_mem _ hm, ?_⟩
    by_cases hbeq : (m.id == n.id) = true
    · rw [if_pos hbeq]
      exact (eq_of_beq hbeq) ▸ hid
    · rw [if_neg hbeq]
      exact hid
  · rw [if_neg hany]
    exact ⟨m, List.mem_append_left _ hm, hid⟩

/-- The inserted node's id is present after insertion. -/
theorem insertNode_self (ns : List Graph.GraphNode) (n : Graph.GraphNode) :
    Graph.idIn (Graph.insertNode ns n) n.id := by
  unfold Graph.insertNode
  by_cases hany : ns.any (fun m => m.id == n.id) = true
  · rw [if_pos hany]
    rcases List.any_eq_true.mp hany with ⟨m, hm, hbeq⟩
    refine ⟨if m.id == n.id then n else m, List.mem_map_of_mem _ hm, ?_⟩
    rw [if_pos hbeq]
  · rw [if_neg hany]
    exact ⟨n, List.mem_append_right _ (List.mem_singleton_self n), rfl⟩

/-- Edge well-formedness transports along id-preserving node growth. -/
theorem edgeOk_mono {ns ns' : List Graph.GraphNode}
    (h : ∀ x, Graph.idIn ns x → Graph.idIn ns' x) (e : Graph.GraphEdge)
    (he : Graph.edgeOk ns e) : Graph.edgeOk ns' e :=
  ⟨h _ he.1, h _ he.2⟩

/-- The chunk loop grows the node map, keeps every edge well formed
given the document node, and installs every chunk id. -/
theorem addChunks_spec (docId : String)
    (ce : Option (List (String × List ℚ))) :
    ∀ (cs : List Chunking.Chunk)
      (st : List Graph.GraphNode × List Graph.GraphEdge),
      (∀ x, Graph.idIn st.1 x →
        Graph.idIn (Graph.addChunks docId ce cs st).1 x) ∧
      (Graph.idIn st.1 docId → (∀ e ∈ st.2, Graph.edgeOk st.1 e) →
        ∀ e ∈ (Graph.addChunks docId ce cs st).2,
          Graph.edgeOk (Graph.addChunks docId ce cs st).1 e) ∧
      (∀ c ∈ cs, Graph.idIn (Graph.addChunks docId ce cs st).1 c.chunk_id) := by
  intro cs
  induction cs with
  | nil =>
    intro st
    refine ⟨fun x h => h, fun _ hok e he => hok e he, ?_⟩
    intro c hc
    exact absurd hc (List.not_mem_nil c)
  | cons c rest ih =>
    rintro ⟨ns, es⟩
    unfold Graph.addChunks
    dsimp only
    set node := Graph.chunk_node c (Graph.dictGetVec ce c.chunk_id) with hnode
    refine ⟨?_, ?_, ?_⟩
    · intro x hx
      exact (ih _).1 x (insertNode_mono ns node x hx)
    · intro hdoc hok e he
      have hdoc' : Graph.idIn (Graph.insertNode ns node) docId :=
        insertNode_mono ns node docId hdoc
      refine (ih _).2.1 hdoc' ?_ e he
      intro e' he'
      rcases List.mem_append.mp he' with h | h
      · exact edgeOk_mono (fun x => insertNode_mono ns node x) e' (hok e' h)
      · rcases List.mem_singleton.mp h with rfl
        exact ⟨hdoc', insertNode_self ns node⟩
    · intro c' hc'
      rcases List.mem_cons.mp hc' with h | h
      · subst h
        exact (ih _).1 c'.chunk_id (insertNode_self ns node)
      · exact (ih _).2.2 c' h

/-- The role-edge loop grows the node map and keeps edges well formed
given the relation node. -/
theorem addRoleEntities_spec (relId : String)
    (ee : Option (List (String × List ℚ))) :
    ∀ (pairs : List (String × Models.Entity))
      (st : List Graph.GraphNode × List Graph.GraphEdge),
      (∀ x, Graph.idIn st.1 x →
        Graph.idIn (Graph.addRoleEntities relId ee pairs st).1 x) ∧
      (Graph.idIn st.1 relId → (∀ e ∈ st.2, Graph.edgeOk st.1 e) →
        ∀ e ∈ (Graph.addRoleEntities relId ee pairs st).2,
          Graph.edgeOk (Graph.addRoleEntities relId ee pairs st).1 e) := by
  intro pairs
  induction pairs with
  | nil =>
    intro st
    exact ⟨fun x h => h, fun _ hok e he => hok e he⟩
  | cons p rest ih =>
    rcases p with ⟨roleLabel, ent⟩
    rintro ⟨ns, es⟩
    unfold Graph.addRoleEntities
    dsimp only
    set node := Graph.entity_node ent (Graph.dictGetVec ee
      (Graph.generate_id [("label", ent.label), ("name", ent.name)]))
      with hnode
    refine ⟨?_, ?_⟩
    · intro x hx
      exact (ih _).1 x (insertNode_mono ns node x hx)
    · intro hrel hok e he
      have hrel' : Graph.idIn (Graph.insertNode ns node) relId :=
        insertNode_mono ns node relId hrel
      refine (ih _).2 hrel' ?_ e he
      intro e' he'
      rcases List.mem_append.mp he' with h | h
      · exact edgeOk_mono (fun x => insertNode_mono ns node x) e' (hok e' h)
      · rcases List.mem_singleton.mp h with rfl
        exact ⟨hrel', insertNode_self ns node⟩

/-- The relation loop grows the node map and keeps edges well formed
given the document node and the chunk-id set. -/
theorem addRelations_spec (docId : String) (chunkIdSet : List String)
    (ee : Option (List (String × List ℚ))) :
    ∀ (rels : List Models.Relation)
      (st : List Graph.GraphNode × List Graph.GraphEdge),
      (∀ x, Graph.idIn st.1 x →
        Graph.idIn (Graph.addRelations docId chunkIdSet ee rels st).1 x) ∧
      (Graph.idIn st.1 docId →
        (∀ cid ∈ chunkIdSet, Graph.idIn st.1 cid) →
        (∀ e ∈ st.2, Graph.edgeOk st.1 e) →
        ∀ e ∈ (Graph.addRelations docId chunkIdSet ee rels st).2,
          Graph.edgeOk (Graph.addRelations docId chunkIdSet ee rels st).1
            e) := by
  intro rels
  induction rels with
  | nil =>
    intro st
    exact ⟨fun x h => h, fun _ _ hok e he => hok e he⟩
  | cons r rest ih =>
    rintro ⟨ns, es⟩
    unfold Graph.addRelations
    dsimp only
    set relNode := Graph.relation_node r with hrelNode
    set ns1 := Graph.insertNode ns relNode with hns1
    set extractedFrom : Graph.GraphEdge :=
      if Valid.strOptTruthy r.source.chunk_id &&
          chunkIdSet.contains (r.source.chunk_id.getD "") then
        { source_id := relNode.id, target_id := r.source.chunk_id.getD ""
          relation_type := "EXTRACTED_FROM" }
      else
        { source_id := relNode.id, target_id := docId
          relation_type := "EXTRACTED_FROM" }
      with hef
    have hmonoRoles := (addRoleEntities_spec relNode.id ee (Graph.roleMap r)
      (ns1, es ++ [extractedFrom])).1
    refine ⟨?_, ?_⟩
    · intro x hx
      exact (ih _).1 x (hmonoRoles x (insertNode_mono ns relNode x hx))
    · intro hdoc hcid hok e he
      have hdoc1 : Graph.idIn ns1 docId := insertNode_mono ns relNode _ hdoc
      have hcid1 : ∀ cid ∈ chunkIdSet, Graph.idIn ns1 cid :=
        fun cid h => insertNode_mono ns relNode _ (hcid cid h)
      have hrel1 : Graph.idIn ns1 relNode.id := insertNode_self ns relNode
      have hefok : Graph.edgeOk ns1 extractedFrom := by
        rw [hef]
        split
        · rename_i hcond
          refine ⟨hrel1, ?_⟩
          have hmem : (r.source.chunk_id.getD "") ∈ chunkIdSet := by
            have := (Bool.and_eq_true _ _).mp hcond
            exact List.mem_of_elem_eq_true this.2
          exact hcid1 _ hmem
        · exact ⟨hrel1, hdoc1⟩
      have hok1 : ∀ e' ∈ es ++ [extractedFrom], Graph.edgeOk ns1 e' := by
        intro e' he'
        rcases List.mem_append.mp he' with h | h
        · exact edgeOk_mono (fun x => insertNode_mono ns relNode x) e'
            (hok e' h)
        · rcases List.mem_singleton.mp h with rfl
          exact hefok
      have hroles := (addRoleEntities_spec relNode.id ee (Graph.roleMap r)
        (ns1, es ++ [extractedFrom])).2 hrel1 hok1
      refine (ih _).2 (hmonoRoles docId hdoc1)
        (fun cid h => hmonoRoles cid (hcid1 cid h)) hroles e he

/-- The mention loop grows the node map and keeps edges well formed
given the document node and the chunk-id set; REFERS_TO edges are only
emitted toward ids already present. -/
theorem addMentions_spec (docId : String) (chunkIdSet : List String) :
    ∀ (ms : List Graph.Mention)
      (st : List Graph.GraphNode × List Graph.GraphEdge),
      (∀ x, Graph.idIn st.1 x →
        Graph.idIn (Graph.addMentions docId chunkIdSet ms st).1 x) ∧
      (Graph.idIn st.1 docId →
        (∀ cid ∈ chunkIdSet, Graph.idIn st.1 cid) →
        (∀ e ∈ st.2, Graph.edgeOk st.1 e) →
        ∀ e ∈ (Graph.addMentions docId chunkIdSet ms st).2,
          Graph.edgeOk (Graph.addMentions docId chunkIdSet ms st).1 e) := by
  intro ms
  induction ms with
  | nil =>
    intro st
    exact ⟨fun x h => h, fun _ _ hok e he => hok e he⟩
  | cons m rest ih =>
    rintro ⟨ns, es⟩
    unfold Graph.addMentions
    dsimp only
    set mNode := Graph.mention_node m with hmNode
    set ns1 := Graph.insertNode ns mNode with hns1
    refine ⟨?_, ?_⟩
    · intro x hx
      exact (ih _).1 x (insertNode_mono ns mNode x hx)
    · intro hdoc hcid hok e he
      have hdoc1 : Graph.idIn ns1 docId := insertNode_mono ns mNode _ hdoc
      have hcid1 : ∀ cid ∈ chunkIdSet, Graph.idIn ns1 cid :=
        fun cid h => insertNode_mono ns mNode _ (hcid cid h)
      have hm1 : Graph.idIn ns1 mNode.id := insertNode_self ns mNode
      have hokNew : ∀ e' ∈ es ++
          [if Valid.strOptTruthy m.chunk_id &&
              chunkIdSet.contains (m.chunk_id.getD "") then
            ({ source_id := m.chunk_id.getD "", target_id := mNode.id
               relation_type := "HAS_MENTION" } : Graph.GraphEdge)
          else
            { source_id := docId, target_id := mNode.id
              relation_type := "HAS_MENTION" }] ++
          (if ns1.any (fun n => n.id == Graph.generate_id
              [("label", m.entity_label), ("name", m.entity_name)]) then
            [({ source_id := mNode.id
                target_id := Graph.generate_id
                  [("label", m.entity_label), ("name", m.entity_name)]
                relation_type := "REFERS_TO" } : Graph.GraphEdge)]
          else []),
          Graph.edgeOk ns1 e' := by
        intro e' he'
        rcases List.mem_append.mp he' with h | h
        · rcases List.mem_append.mp h with h | h
          · exact edgeOk_mono (fun x => insertNode_mono ns mNode x) e'
              (hok e' h)
          · rcases List.mem_singleton.mp h with rfl
            split
            · rename_i hcond
              refine ⟨?_, hm1⟩
              have hmem : (m.chunk_id.getD "") ∈ chunkIdSet := by
                have := (Bool.and_eq_true _ _).mp hcond
                exact List.mem_of_elem_eq_true this.2
              exact hcid1 _ hmem
            · exact ⟨hdoc1, hm1⟩
        · by_cases hany : ns1.any (fun n => n.id == Graph.generate_id
              [("label", m.entity_label), ("name", m.entity_name)]) = true
          · rw [if_pos hany] at h
            rcases List.mem_singleton.mp h with rfl
            refine ⟨hm1, ?_⟩
            rcases List.any_eq_true.mp hany with ⟨nd, hnd, hbeq⟩
            exact ⟨nd, hnd, eq_of_beq hbeq⟩
          · rw [if_neg hany] at h
            exact absurd h (List.not_mem_nil e')
      exact (ih _).2 hdoc1 hcid1 hokNew e he

/-- C10: referential integrity of build_graph_elements — every returned
edge's source and target id is the id of some returned node:
EXTRACTED_FROM and HAS_MENTION fall back to the Document node when the
chunk is unknown, and REFERS_TO is emitted only when the canonical
entity node already exists, so no edge dangles. -/
theorem C10_graph_referential_integrity :
    ∀ (relations : List Models.Relation) (document_id : String)
      (ee : Option (List (String × List ℚ)))
      (chunks : Option (List Chunking.Chunk))
      (ce : Option (List (String × List ℚ)))
      (mentions : Option (List Graph.Mention)),
      ∀ e ∈ (Graph.build_graph_elements relations document_id ee chunks
        ce mentions).2,
        Graph.edgeOk (Graph.build_graph_elements relations document_id ee
          chunks ce mentions).1 e := by
  intro relations document_id ee chunks ce mentions e he
  unfold Graph.build_graph_elements at he ⊢
  dsimp only at he ⊢
  set docNode : Graph.GraphNode :=
    { id := Graph.generate_id [("document_id", document_id)]
      labels := ["Document"]
      properties := [("document_id", .s document_id)] } with hdocNode
  set chunkIdSet := (chunks.getD []).map (fun c => c.chunk_id) with hcs
  set st1 := Graph.addChunks docNode.id ce (chunks.getD [])
    ([docNode], []) with hst1
  set st2 := Graph.addRelations docNode.id chunkIdSet ee relations st1
    with hst2
  have hdoc0 : Graph.idIn [docNode] docNode.id :=
    ⟨docNode, List.mem_singleton_self docNode, rfl⟩
  have hchunks := addChunks_spec docNode.id ce (chunks.getD [])
    ([docNode], [])
  have hdoc1 : Graph.idIn st1.1 docNode.id := hchunks.1 _ hdoc0
  have hcid1 : ∀ cid ∈ chunkIdSet, Graph.idIn st1.1 cid := by
    intro cid hcid
    rcases List.mem_map.mp hcid with ⟨c, hc, hcc⟩
    exact hcc ▸ hchunks.2.2 c hc
  have hok1 : ∀ e' ∈ st1.2, Graph.edgeOk st1.1 e' := by
    refine hchunks.2.1 hdoc0 ?_
    intro e' he'
    exact absurd he' (List.not_mem_nil e')
  have hrels := addRelations_spec docNode.id chunkIdSet ee relations st1
  have hdoc2 : Graph.idIn st2.1 docNode.id := hrels.1 _ hdoc1
  have hcid2 : ∀ cid ∈ chunkIdSet, Graph.idIn st2.1 cid :=
    fun cid h => hrels.1 _ (hcid1 cid h)
  have hok2 : ∀ e' ∈ st2.2, Graph.edgeOk st2.1 e' :=
    hrels.2 hdoc1 hcid1 hok1
  exact (addMentions_spec docNode.id chunkIdSet (mentions.getD [])
    st2).2 hdoc2 hcid2 hok2 e he

/-- C10 witness: the integrity property instantiated on a concrete
build with one chunk and its HAS_CHUNK edge. -/
theorem C10_graph_referential_integrity_witness :
    (Samples.hcEdge ∈ (Graph.build_graph_elements [] "doc1" none
      (some [Samples.gChunk]) none none).2) ∧
    Graph.edgeOk (Graph.build_graph_elements [] "doc1" none
      (some [Samples.gChunk]) none none).1 Samples.hcEdge :=
  ⟨by decide,
   C10_graph_referential_integrity [] "doc1" none (some [Samples.gChunk])
     none none Samples.hcEdge (by decide)⟩

end AgentKG
